import Mathlib

/-!
Verification of the AbsurderSQL mobile FFI session layer.

The visible sources (`src/absurder-sql-mobile/ios/AbsurderSQL-Bridging-Header.h`,
`AbsurderSQLBridge.h`) are declaration-only: they give the C ABI signatures of
the handle-mediated session layer (`absurder_db_new`, `absurder_db_execute`,
streaming and prepared-statement entry points, ...) but not the implementation
behind them.  The definitions below therefore model that implementation from
the specification's words; each such definition carries a doc comment starting
`Modelled from the spec:` naming what is missing from the sources.
-/

namespace AbsurderSQL

/-- Modelled from the spec: the Marshaling Codec's tagged-variant value type
(null / integer / floating-point / text / binary).  The codec implementation
behind the header declarations is not in the visible sources.  IEEE 754
floating-point payloads are represented by a (mantissa, exponent) pair —
rounding behaviour is the engine's concern — and binary payloads by their
byte sequence. -/
inductive Value : Type
  | null : Value
  | int (i : Int) : Value
  | float (mantissa : Int) (exponent : Int) : Value
  | text (s : String) : Value
  | binary (bytes : List (Fin 256)) : Value

/-- A decoded row crossing the boundary is an ordered list of typed values. -/
abbrev Row := List Value

/-- The character for a single decimal digit `d < 10`. -/
def digitChar (d : Nat) : Char := Char.ofNat (48 + d)

/-- Decimal digit characters of `n`, most significant first (`"0"` for 0). -/
def natChars (n : Nat) : List Char :=
  if n = 0 then ['0'] else ((Nat.digits 10 n).map digitChar).reverse

/-- Numeric value of a digit character. -/
def charVal (c : Char) : Nat := c.toNat - 48

/-- Parse a nonempty run of decimal digits from the front of `cs`. -/
def parseNat (cs : List Char) : Option (Nat × List Char) :=
  let ds := cs.takeWhile Char.isDigit
  if ds = [] then none
  else some (ds.foldl (fun a c => a * 10 + charVal c) 0, cs.dropWhile Char.isDigit)

theorem digitChar_isDigit {d : Nat} (h : d < 10) : (digitChar d).isDigit = true := by
  interval_cases d <;> decide

theorem charVal_digitChar {d : Nat} (h : d < 10) : charVal (digitChar d) = d := by
  interval_cases d <;> decide

theorem takeWhile_digits_append (ds : List Char) (c : Char) (t : List Char)
    (hds : ∀ x ∈ ds, x.isDigit = true) (hc : c.isDigit = false) :
    (ds ++ c :: t).takeWhile Char.isDigit = ds ∧
      (ds ++ c :: t).dropWhile Char.isDigit = c :: t := by
  induction ds with
  | nil => simp [List.takeWhile, List.dropWhile, hc]
  | cons a as ih =>
    have ha : a.isDigit = true := hds a (by simp)
    have h' := ih (fun x hx => hds x (by simp [hx]))
    simp [List.takeWhile, List.dropWhile, ha, h'.1, h'.2]

theorem foldl_rev_digits (L : List Nat) (hL : ∀ d ∈ L, d < 10) (acc : Nat) :
    ((L.map digitChar).reverse).foldl (fun a c => a * 10 + charVal c) acc
      = acc * 10 ^ L.length + Nat.ofDigits 10 L := by
  induction L generalizing acc with
  | nil => simp [Nat.ofDigits]
  | cons d t ih =>
    have hd : d < 10 := hL d (by simp)
    have ht : ∀ x ∈ t, x < 10 := fun x hx => hL x (by simp [hx])
    simp only [List.map_cons, List.reverse_cons, List.foldl_append, List.foldl_cons,
      List.foldl_nil, ih ht, Nat.ofDigits_cons, List.length_cons,
      charVal_digitChar hd, pow_succ]
    ring

theorem natChars_ne_nil (n : Nat) : natChars n ≠ [] := by
  unfold natChars
  split
  · simp
  · simp_all [Nat.digits_ne_nil_iff_ne_zero]

theorem natChars_digits (n : Nat) : ∀ c ∈ natChars n, c.isDigit = true := by
  intro c hc
  unfold natChars at hc
  split at hc
  · simp at hc
    subst hc
    decide
  · simp only [List.mem_reverse, List.mem_map] at hc
    obtain ⟨d, hd, rfl⟩ := hc
    exact digitChar_isDigit (Nat.digits_lt_base (by norm_num) hd)

theorem parseNat_natChars (n : Nat) (c : Char) (t : List Char) (hc : c.isDigit = false) :
    parseNat (natChars n ++ c :: t) = some (n, c :: t) := by
  obtain ⟨hTake, hDrop⟩ := takeWhile_digits_append (natChars n) c t (natChars_digits n) hc
  have hne := natChars_ne_nil n
  unfold parseNat
  simp only [hTake, hDrop, if_neg hne]
  congr 1
  by_cases h0 : n = 0
  · subst h0
    simp [natChars, charVal]
  · have : natChars n = ((Nat.digits 10 n).map digitChar).reverse := by
      simp [natChars, h0]
    rw [this, foldl_rev_digits _ (fun d hd => Nat.digits_lt_base (by norm_num) hd)]
    simp [Nat.ofDigits_digits]

/-- Encode a signed integer: optional minus sign, decimal digits, `';'` terminator. -/
def encInt (i : Int) : List Char :=
  if i < 0 then '-' :: (natChars i.natAbs ++ [';']) else natChars i.natAbs ++ [';']

/-- Parse an unsigned run of digits followed by `';'`, signed by `neg`. -/
def parseIntAux (neg : Bool) (cs : List Char) : Option (Int × List Char) :=
  match parseNat cs with
  | some (n, r) =>
    match r with
    | d :: r2 => if d = ';' then some (if neg then -(n : Int) else (n : Int), r2) else none
    | [] => none
  | none => none

/-- Parse a signed integer terminated by `';'`. -/
def parseIntT (cs : List Char) : Option (Int × List Char) :=
  match cs with
  | [] => none
  | c :: rest => if c = '-' then parseIntAux true rest else parseIntAux false (c :: rest)

theorem parseIntAux_natChars (neg : Bool) (n : Nat) (rest : List Char) :
    parseIntAux neg (natChars n ++ ';' :: rest)
      = some (if neg then -(n : Int) else (n : Int), rest) := by
  unfold parseIntAux
  rw [parseNat_natChars _ _ _ (by decide)]
  simp

theorem parseIntT_encInt (i : Int) (rest : List Char) :
    parseIntT (encInt i ++ rest) = some (i, rest) := by
  by_cases hneg : i < 0
  · have hsh : encInt i ++ rest = '-' :: (natChars i.natAbs ++ ';' :: rest) := by
      simp [encInt, hneg]
    have hi : -(i.natAbs : Int) = i := by omega
    rw [hsh]
    simp only [parseIntT, if_pos rfl, parseIntAux_natChars, if_pos rfl]
    rw [hi]
    simp
  · obtain ⟨c0, t0, h0⟩ : ∃ c0 t0, natChars i.natAbs = c0 :: t0 := by
      cases h : natChars i.natAbs with
      | nil => exact absurd h (natChars_ne_nil _)
      | cons a b => exact ⟨a, b, rfl⟩
    have hc0 : c0.isDigit = true := natChars_digits i.natAbs c0 (by simp [h0])
    have hc0ne : ¬ (c0 = '-') := by
      intro hEq
      rw [hEq] at hc0
      exact absurd hc0 (by decide)
    have hsplit : encInt i ++ rest = c0 :: (t0 ++ ';' :: rest) := by
      simp [encInt, hneg, h0]
    have hi : (i.natAbs : Int) = i := by omega
    rw [hsplit]
    simp only [parseIntT, if_neg hc0ne]
    have hlist : c0 :: (t0 ++ ';' :: rest) = natChars i.natAbs ++ ';' :: rest := by
      simp [h0]
    rw [hlist, parseIntAux_natChars]
    simp only [Bool.false_eq_true, if_false]
    rw [hi]

/-- A byte as exactly three decimal digit characters (zero-padded). -/
def pad3 (b : Nat) : List Char :=
  [digitChar (b / 100), digitChar (b / 10 % 10), digitChar (b % 10)]

/-- Decode one zero-padded 3-digit byte, validating digits and range. -/
def parseByte (c1 c2 c3 : Char) : Option (Fin 256) :=
  if c1.isDigit = true ∧ c2.isDigit = true ∧ c3.isDigit = true then
    if h : charVal c1 * 100 + charVal c2 * 10 + charVal c3 < 256 then
      some ⟨charVal c1 * 100 + charVal c2 * 10 + charVal c3, h⟩
    else none
  else none

/-- Decode exactly `n` 3-digit bytes. -/
def parseBytes : Nat → List Char → Option (List (Fin 256) × List Char)
  | 0, cs => some ([], cs)
  | n + 1, cs =>
    match cs with
    | c1 :: c2 :: c3 :: r =>
      match parseByte c1 c2 c3 with
      | some b =>
        match parseBytes n r with
        | some (bs, rest) => some (b :: bs, rest)
        | none => none
      | none => none
    | _ => none

theorem parseByte_pad3 (b : Nat) (hb : b < 256) :
    parseByte (digitChar (b / 100)) (digitChar (b / 10 % 10)) (digitChar (b % 10))
      = some ⟨b, hb⟩ := by
  have h1 : b / 100 < 10 := by omega
  have h2 : b / 10 % 10 < 10 := by omega
  have h3 : b % 10 < 10 := by omega
  have hval : charVal (digitChar (b / 100)) * 100 + charVal (digitChar (b / 10 % 10)) * 10
      + charVal (digitChar (b % 10)) = b := by
    rw [charVal_digitChar h1, charVal_digitChar h2, charVal_digitChar h3]
    omega
  simp [parseByte, digitChar_isDigit h1, digitChar_isDigit h2, digitChar_isDigit h3, hval, hb]

theorem parseBytes_enc (bs : List (Fin 256)) (rest : List Char) :
    parseBytes bs.length ((bs.map (fun b => pad3 b.val)).flatten ++ rest) = some (bs, rest) := by
  induction bs with
  | nil => simp [parseBytes]
  | cons b t ih =>
    have : ((b :: t).map (fun x => pad3 x.val)).flatten ++ rest
        = digitChar (b.val / 100) :: digitChar (b.val / 10 % 10) :: digitChar (b.val % 10)
          :: ((t.map (fun x => pad3 x.val)).flatten ++ rest) := by
      simp [pad3]
    rw [List.length_cons, this]
    simp only [parseBytes, parseByte_pad3 b.val b.isLt, ih]


theorem take_append_len {α : Type} (l₁ l₂ : List α) :
    (l₁ ++ l₂).take l₁.length = l₁ ∧ (l₁ ++ l₂).drop l₁.length = l₂ := by
  induction l₁ with
  | nil => simp
  | cons a t ih => simp [ih.1, ih.2]

/-- Modelled from the spec: the codec's encoder for a single tagged value; the
implementation behind the header declarations is not in the visible sources.
Tags: `n` null, `i` integer, `f` float (mantissa and exponent), `t` text
(length-prefixed), `b` binary (length-prefixed, three digits per byte). -/
def encodeValue : Value → List Char
  | .null => ['n']
  | .int i => 'i' :: encInt i
  | .float m e => 'f' :: (encInt m ++ encInt e)
  | .text s => 't' :: (natChars s.data.length ++ ':' :: s.data)
  | .binary bs => 'b' :: (natChars bs.length ++ ':' :: (bs.map (fun b => pad3 b.val)).flatten)

/-- Modelled from the spec: strict decoder for one tagged value, validating the
tag, digit runs, terminators and byte ranges; returns the remaining input. -/
def parseValue (cs : List Char) : Option (Value × List Char) :=
  match cs with
  | [] => none
  | c :: rest =>
    if c = 'n' then some (.null, rest)
    else if c = 'i' then
      match parseIntT rest with
      | some (i, r) => some (.int i, r)
      | none => none
    else if c = 'f' then
      match parseIntT rest with
      | some (m, r1) =>
        match parseIntT r1 with
        | some (e, r2) => some (.float m e, r2)
        | none => none
      | none => none
    else if c = 't' then
      match parseNat rest with
      | some (n, r1) =>
        match r1 with
        | d :: r2 =>
          if d = ':' then
            if n ≤ r2.length then some (.text ⟨r2.take n⟩, r2.drop n) else none
          else none
        | [] => none
      | none => none
    else if c = 'b' then
      match parseNat rest with
      | some (n, r1) =>
        match r1 with
        | d :: r2 =>
          if d = ':' then
            match parseBytes n r2 with
            | some (bs, r) => some (.binary bs, r)
            | none => none
          else none
        | [] => none
      | none => none
    else none

theorem parseValue_encodeValue (v : Value) (rest : List Char) :
    parseValue (encodeValue v ++ rest) = some (v, rest) := by
  have hcolon : (':' : Char).isDigit = false := by decide
  cases v with
  | null => simp [encodeValue, parseValue]
  | int i =>
    have : encodeValue (.int i) ++ rest = 'i' :: (encInt i ++ rest) := by
      simp [encodeValue]
    rw [this]
    simp [parseValue, parseIntT_encInt]
  | float m e =>
    have : encodeValue (.float m e) ++ rest = 'f' :: (encInt m ++ (encInt e ++ rest)) := by
      simp [encodeValue]
    rw [this]
    simp [parseValue, parseIntT_encInt]
  | text s =>
    have hsh : encodeValue (.text s) ++ rest
        = 't' :: (natChars s.data.length ++ ':' :: (s.data ++ rest)) := by
      simp [encodeValue]
    rw [hsh]
    simp only [parseValue, parseNat_natChars _ _ _ hcolon]
    have hle : s.data.length ≤ (s.data ++ rest).length := by
      simp
    have htake := (take_append_len s.data rest).1
    have hdrop := (take_append_len s.data rest).2
    simp only [if_pos rfl, if_pos hle, htake, hdrop]
    cases s
    simp
  | binary bs =>
    have hsh : encodeValue (.binary bs) ++ rest
        = 'b' :: (natChars bs.length ++ ':'
            :: ((bs.map (fun b => pad3 b.val)).flatten ++ rest)) := by
      simp [encodeValue]
    rw [hsh]
    simp only [parseValue, parseNat_natChars _ _ _ hcolon]
    simp [parseBytes_enc]

/-- Modelled from the spec: decode a whole parameter payload as an ordered
sequence of typed values (fuel-indexed worker; the payload length bounds the
number of values it can contain). -/
def parseValuesF : Nat → List Char → Option (List Value)
  | 0, cs => if cs = [] then some [] else none
  | fuel + 1, cs =>
    if cs = [] then some []
    else
      match parseValue cs with
      | some (v, r) =>
        match parseValuesF fuel r with
        | some vs => some (v :: vs)
        | none => none
      | none => none

/-- Modelled from the spec: `decode_params(text) -> ordered sequence of typed
values | error`; the codec implementation is not in the visible sources. -/
def decode_params (cs : List Char) : Option (List Value) := parseValuesF cs.length cs

/-- Modelled from the spec: `encode_result(rows) -> text`; each row is the
concatenation of its values' encodings. -/
def encode_result (rows : List Row) : List Char :=
  (rows.map (fun r => (r.map encodeValue).flatten)).flatten

theorem encodeValue_ne_nil (v : Value) : encodeValue v ≠ [] := by
  cases v <;> simp [encodeValue]

theorem parseValuesF_enc (vs : List Value) :
    ∀ fuel, vs.length ≤ fuel → parseValuesF fuel ((vs.map encodeValue).flatten) = some vs := by
  induction vs with
  | nil =>
    intro fuel _
    cases fuel <;> simp [parseValuesF]
  | cons v t ih =>
    intro fuel hfuel
    cases fuel with
    | zero => simp at hfuel
    | succ f =>
      have hne : encodeValue v ++ (t.map encodeValue).flatten ≠ [] := by
        intro h
        exact encodeValue_ne_nil v (List.append_eq_nil.mp h).1
      have hstep : ((v :: t).map encodeValue).flatten
          = encodeValue v ++ (t.map encodeValue).flatten := by
        simp
      rw [hstep]
      simp only [parseValuesF, if_neg hne, parseValue_encodeValue,
        ih f (Nat.le_of_succ_le_succ hfuel)]

theorem length_le_enc_length (vs : List Value) :
    vs.length ≤ ((vs.map encodeValue).flatten).length := by
  induction vs with
  | nil => simp
  | cons v t ih =>
    have h1 : 1 ≤ (encodeValue v).length := by
      cases h : encodeValue v with
      | nil => exact absurd h (encodeValue_ne_nil v)
      | cons a b => simp
    simp only [List.map_cons, List.flatten_cons, List.length_append, List.length_cons]
    omega

/-- Modelled from the spec: per-connection transaction state, `{None, Active}`. -/
inductive TxState : Type
  | none : TxState
  | active : TxState
deriving DecidableEq

/-- Modelled from the spec: the stream cursor state machine `{Open, Exhausted, Closed}`. -/
inductive CursorState : Type
  | open : CursorState
  | exhausted : CursorState
  | closed : CursorState
deriving DecidableEq

/-- Modelled from the spec: a Connection Session — the engine session behind
`absurder_db_new` / `absurder_db_new_encrypted`; owns an optional encryption
key and the transaction state.  Child handles are recorded in the resources
they name (statements and streams carry their owning connection's handle). -/
structure Conn : Type where
  key : Option String
  txState : TxState

/-- Modelled from the spec: a Prepared Statement bound to exactly one
connection (`absurder_db_prepare`). -/
structure Stmt : Type where
  conn : Nat

/-- Modelled from the spec: a Stream Cursor (`absurder_stmt_prepare_stream`):
a partially-consumed result-set iterator.  `remaining` is the engine-side
iteration state — the rows not yet fetched, in engine order. -/
structure StreamCur : Type where
  conn : Nat
  cstate : CursorState
  remaining : List Row

/-- Modelled from the spec: the Handle Table's resource categories
(connection, prepared statement, stream cursor). -/
inductive Resource : Type
  | conn (c : Conn) : Resource
  | stmt (st : Stmt) : Resource
  | stream (sc : StreamCur) : Resource

/-- Does resource `r` belong to (was it spawned by) the connection handle `h`? -/
def Resource.childOf (r : Resource) (h : Nat) : Bool :=
  match r with
  | .conn _ => false
  | .stmt st => st.conn = h
  | .stream sc => sc.conn = h

/-- Modelled from the spec: the process state of the FFI session layer — the
Handle Table (an association list keyed by 64-bit handles, next-fresh-handle
counter starting at 1 so 0 stays the failure sentinel) and the Error Channel
(one calling thread is modelled, so the channel is one slot). -/
structure FFIState : Type where
  nextHandle : Nat
  table : List (Nat × Resource)
  lastError : Option String

/-- The initial state of the layer: no live handles, no recorded error. -/
def initState : FFIState := ⟨1, [], Option.none⟩

/-- Handle Table lookup, first match wins (`resolve(handle) -> resource | NotFound`). -/
def lookupTable : List (Nat × Resource) → Nat → Option Resource
  | [], _ => Option.none
  | (k, r) :: t, h => if k = h then some r else lookupTable t h

/-- `resolve` on the whole state. -/
def FFIState.resolve (s : FFIState) (h : Nat) : Option Resource := lookupTable s.table h

/-- Modelled from the spec: `allocate(resource) -> handle` — mint a fresh
handle, register the resource, bump the counter. -/
def FFIState.alloc (s : FFIState) (r : Resource) : Nat × FFIState :=
  (s.nextHandle, ⟨s.nextHandle + 1, (s.nextHandle, r) :: s.table, s.lastError⟩)

/-- Replace the resource stored at `h` (first matching entry). -/
def updateTable : List (Nat × Resource) → Nat → Resource → List (Nat × Resource)
  | [], _, _ => []
  | (k, r0) :: t, h, r => if k = h then (k, r) :: t else (k, r0) :: updateTable t h r

/-- `update` on the whole state. -/
def FFIState.update (s : FFIState) (h : Nat) (r : Resource) : FFIState :=
  ⟨s.nextHandle, updateTable s.table h r, s.lastError⟩

/-- Modelled from the spec: `release(handle)` — remove the mapping. -/
def FFIState.remove (s : FFIState) (h : Nat) : FFIState :=
  ⟨s.nextHandle, s.table.filter (fun p => !(p.1 = h)), s.lastError⟩

/-- Modelled from the spec: cascading close — removing a connection removes
every prepared statement and stream cursor it spawned. -/
def FFIState.closeConn (s : FFIState) (h : Nat) : FFIState :=
  ⟨s.nextHandle, s.table.filter (fun p => !(p.1 = h || p.2.childOf h)), s.lastError⟩

/-- Modelled from the spec: `set_last_error(message)` on the Error Channel. -/
def FFIState.setErr (s : FFIState) (m : String) : FFIState :=
  ⟨s.nextHandle, s.table, some m⟩

theorem lookupTable_alloc (s : FFIState) (r : Resource) :
    (s.alloc r).2.resolve (s.alloc r).1 = some r := by
  simp [FFIState.alloc, FFIState.resolve, lookupTable]

theorem lookupTable_filter_self (t : List (Nat × Resource)) (h : Nat) :
    lookupTable (t.filter (fun p => !(p.1 = h))) h = Option.none := by
  induction t with
  | nil => simp [lookupTable]
  | cons p rest ih =>
    by_cases hk : p.1 = h
    · simp [List.filter, hk, ih]
    · simp [List.filter, hk, lookupTable, ih]

theorem lookupTable_filter_none {t : List (Nat × Resource)} {h : Nat}
    (p : Nat × Resource → Bool) (hn : lookupTable t h = Option.none) :
    lookupTable (t.filter p) h = Option.none := by
  induction t with
  | nil => simp [lookupTable]
  | cons q rest ih =>
    simp only [lookupTable] at hn
    by_cases hk : q.1 = h
    · simp [hk] at hn
    · rcases hp : p q with _ | _
      · obtain ⟨a, b⟩ := q
        simp only at hk
        simp only [List.filter, hp]
        exact ih (by simpa [hk] using hn)
      · obtain ⟨a, b⟩ := q
        simp only at hk
        simp only [List.filter, hp, lookupTable, if_neg hk]
        exact ih (by simpa [hk] using hn)

theorem lookupTable_update_self {t : List (Nat × Resource)} {h : Nat} {r0 : Resource}
    (hlk : lookupTable t h = some r0) (r : Resource) :
    lookupTable (updateTable t h r) h = some r := by
  induction t with
  | nil => simp [lookupTable] at hlk
  | cons q rest ih =>
    by_cases hk : q.1 = h
    · obtain ⟨a, b⟩ := q
      simp only at hk
      simp [updateTable, hk, lookupTable]
    · obtain ⟨a, b⟩ := q
      simp only at hk
      simp only [lookupTable, if_neg hk] at hlk
      simp only [updateTable, if_neg hk, lookupTable, if_neg hk]
      exact ih hlk

theorem lookupTable_update_none {t : List (Nat × Resource)} {h : Nat}
    (h' : Nat) (r : Resource) (hn : lookupTable t h = Option.none) :
    lookupTable (updateTable t h' r) h = Option.none := by
  induction t with
  | nil => simp [updateTable, lookupTable]
  | cons q rest ih =>
    obtain ⟨a, b⟩ := q
    simp only [lookupTable] at hn
    by_cases hk : a = h
    · simp [hk] at hn
    · have hn' : lookupTable rest h = Option.none := by simpa [hk] using hn
      by_cases hk' : a = h'
      · have hne : ¬ (h' = h) := by
          rw [← hk']
          exact hk
        simp [updateTable, hk', lookupTable, hne, hn']
      · simp only [updateTable, if_neg hk', lookupTable, if_neg hk]
        exact ih hn'

theorem keys_updateTable (t : List (Nat × Resource)) (h : Nat) (r : Resource) :
    (updateTable t h r).map Prod.fst = t.map Prod.fst := by
  induction t with
  | nil => simp [updateTable]
  | cons q rest ih =>
    obtain ⟨a, b⟩ := q
    by_cases hk : a = h
    · simp [updateTable, hk]
    · simp [updateTable, hk, ih]

/-- Error-taxonomy message recorded for an unknown or stale handle. -/
def invalidHandleMsg : String := "InvalidHandle"

/-- Modelled from the spec: `absurder_db_new(name)` — opens or creates a
database.  The engine's ability to open storage at `name` is an external
capability, passed in as the oracle `engineOk`; the Rust implementation behind
the header declaration is not in the visible sources.  Returns the handle
(0 = failure sentinel) and the next state. -/
def absurder_db_new (engineOk : Bool) (name : String) (s : FFIState) : Nat × FFIState :=
  if engineOk then s.alloc (.conn ⟨Option.none, .none⟩)
  else (0, s.setErr "OpenFailed")

/-- Modelled from the spec: `absurder_db_new_encrypted(name, key)` — as
`absurder_db_new` with an encryption key; `keyOk` is the cipher capability's
acceptance of the key. -/
def absurder_db_new_encrypted (engineOk keyOk : Bool) (name key : String) (s : FFIState) :
    Nat × FFIState :=
  if ¬ engineOk then (0, s.setErr "OpenFailed")
  else if ¬ keyOk then (0, s.setErr "BadKey")
  else s.alloc (.conn ⟨some key, .none⟩)

/-- Modelled from the spec: `absurder_db_execute(handle, sql)` — runs one
statement on the connection, materializing the result; `engineRes` is the
external engine's answer (`none` = the engine rejected the statement).
The failure sentinel for the `char *` return is `Option.none` (null). -/
def absurder_db_execute (engineRes : Option String) (h : Nat) (sql : String) (s : FFIState) :
    Option String × FFIState :=
  match s.resolve h with
  | some (.conn _) =>
    match engineRes with
    | some out => (some out, s)
    | Option.none => (Option.none, s.setErr "SqlError")
  | _ => (Option.none, s.setErr invalidHandleMsg)

/-- Modelled from the spec: `absurder_db_execute_with_params(handle, sql,
params_json)` — decodes the parameter payload with the Marshaling Codec
(`ParamDecodeError` on malformed payloads), then runs the statement. -/
def absurder_db_execute_with_params (engineRes : Option String) (h : Nat)
    (sql : String) (params : String) (s : FFIState) : Option String × FFIState :=
  match s.resolve h with
  | some (.conn _) =>
    match decode_params params.data with
    | some _ =>
      match engineRes with
      | some out => (some out, s)
      | Option.none => (Option.none, s.setErr "SqlError")
    | Option.none => (Option.none, s.setErr "ParamDecodeError")
  | _ => (Option.none, s.setErr invalidHandleMsg)

/-- Modelled from the spec: `absurder_get_error()` — reads the Error Channel
without clearing it; returns the empty string when no failure was recorded. -/
def absurder_get_error (s : FFIState) : String × FFIState :=
  (s.lastError.getD "", s)

/-- Modelled from the spec: `absurder_db_export(handle, path)`; `ioOk` is the
filesystem capability's answer.  Status sentinel: 0 success, -1 failure. -/
def absurder_db_export (ioOk : Bool) (h : Nat) (path : String) (s : FFIState) :
    Int × FFIState :=
  match s.resolve h with
  | some (.conn _) => if ioOk then (0, s) else (-1, s.setErr "IOError")
  | _ => (-1, s.setErr invalidHandleMsg)

/-- Modelled from the spec: `absurder_db_import(handle, path)`. -/
def absurder_db_import (ioOk : Bool) (h : Nat) (path : String) (s : FFIState) :
    Int × FFIState :=
  match s.resolve h with
  | some (.conn _) => if ioOk then (0, s) else (-1, s.setErr "IOError")
  | _ => (-1, s.setErr invalidHandleMsg)

/-- Modelled from the spec: `absurder_db_begin_transaction(handle)` —
None → Active; beginning while Active is a `TransactionStateError` that
leaves the transaction state unchanged. -/
def absurder_db_begin_transaction (h : Nat) (s : FFIState) : Int × FFIState :=
  match s.resolve h with
  | some (.conn c) =>
    match c.txState with
    | .none => (0, s.update h (.conn ⟨c.key, .active⟩))
    | .active => (-1, s.setErr "TransactionStateError")
  | _ => (-1, s.setErr invalidHandleMsg)

/-- Modelled from the spec: `absurder_db_commit(handle)` — Active → None;
committing with no active transaction is a `TransactionStateError`. -/
def absurder_db_commit (h : Nat) (s : FFIState) : Int × FFIState :=
  match s.resolve h with
  | some (.conn c) =>
    match c.txState with
    | .active => (0, s.update h (.conn ⟨c.key, .none⟩))
    | .none => (-1, s.setErr "TransactionStateError")
  | _ => (-1, s.setErr invalidHandleMsg)

/-- Modelled from the spec: `absurder_db_rollback(handle)` — Active → None;
rolling back with no active transaction is a `TransactionStateError`. -/
def absurder_db_rollback (h : Nat) (s : FFIState) : Int × FFIState :=
  match s.resolve h with
  | some (.conn c) =>
    match c.txState with
    | .active => (0, s.update h (.conn ⟨c.key, .none⟩))
    | .none => (-1, s.setErr "TransactionStateError")
  | _ => (-1, s.setErr invalidHandleMsg)

/-- Modelled from the spec: `absurder_db_execute_batch(handle,
statements_json)` — fail-fast ordered execution; the JSON array of statements
is modelled as the decoded list, `oracle` gives the engine's per-statement
verdicts. -/
def absurder_db_execute_batch (oracle : List Bool) (h : Nat) (stmts : List String)
    (s : FFIState) : Int × FFIState :=
  match s.resolve h with
  | some (.conn _) =>
    if (oracle.take stmts.length).all (fun b => b) then (0, s)
    else (-1, s.setErr "SqlError")
  | _ => (-1, s.setErr invalidHandleMsg)

/-- Modelled from the spec: `absurder_db_close(handle)` — releases the
connection and cascades closure to all its prepared statements and stream
cursors; a close of an already-closed (unknown) handle is a silent no-op. -/
def absurder_db_close (h : Nat) (s : FFIState) : FFIState :=
  match s.resolve h with
  | some (.conn _) => s.closeConn h
  | _ => s

/-- Modelled from the spec: `absurder_db_prepare(db_handle, sql)` — compiles
`sql` against the connection (`compileOk` is the engine's verdict) and
registers a prepared-statement handle (0 = failure sentinel). -/
def absurder_db_prepare (compileOk : Bool) (h : Nat) (sql : String) (s : FFIState) :
    Nat × FFIState :=
  match s.resolve h with
  | some (.conn _) =>
    if compileOk then s.alloc (.stmt ⟨h⟩)
    else (0, s.setErr "SqlError")
  | _ => (0, s.setErr invalidHandleMsg)

/-- Modelled from the spec: `absurder_stmt_execute(stmt_handle, params_json)`
— decodes the parameters, then runs the compiled statement with them. -/
def absurder_stmt_execute (engineRes : Option String) (h : Nat) (params : String)
    (s : FFIState) : Option String × FFIState :=
  match s.resolve h with
  | some (.stmt _) =>
    match decode_params params.data with
    | some _ =>
      match engineRes with
      | some out => (some out, s)
      | Option.none => (Option.none, s.setErr "SqlError")
    | Option.none => (Option.none, s.setErr "ParamDecodeError")
  | _ => (Option.none, s.setErr invalidHandleMsg)

/-- Modelled from the spec: `absurder_stmt_finalize(stmt_handle)` — releases
the statement; idempotent (a stale handle is a silent success, not an error). -/
def absurder_stmt_finalize (h : Nat) (s : FFIState) : Int × FFIState :=
  match s.resolve h with
  | some (.stmt _) => (0, s.remove h)
  | _ => (0, s)

/-- Modelled from the spec: `absurder_stmt_prepare_stream(db_handle, sql)` —
compiles and begins executing `sql`; `engineRows` is the engine's result-set
iterator (`none` = the engine rejected the statement); the cursor starts Open. -/
def absurder_stmt_prepare_stream (engineRows : Option (List Row)) (h : Nat) (sql : String)
    (s : FFIState) : Nat × FFIState :=
  match s.resolve h with
  | some (.conn _) =>
    match engineRows with
    | some rows => s.alloc (.stream ⟨h, .open, rows⟩)
    | Option.none => (0, s.setErr "SqlError")
  | _ => (0, s.setErr invalidHandleMsg)

/-- Modelled from the spec: one `fetch_next` step on a cursor resource:
`batch_size <= 0` is `InvalidArgument` (result `none`); an Open cursor yields
up to `batch_size` rows in engine order and transitions to Exhausted on the
first empty batch; Exhausted and Closed cursors yield an empty batch, not an
error. -/
def streamFetch (k : Int) (sc : StreamCur) : Option (List Row) × StreamCur :=
  if k ≤ 0 then (Option.none, sc)
  else
    match sc.cstate with
    | .open =>
      match sc.remaining with
      | [] => (some [], ⟨sc.conn, .exhausted, []⟩)
      | _ :: _ =>
        (some (sc.remaining.take k.toNat), ⟨sc.conn, .open, sc.remaining.drop k.toNat⟩)
    | .exhausted => (some [], sc)
    | .closed => (some [], sc)

/-- Modelled from the spec: `absurder_stmt_fetch_next(stream_handle,
batch_size)` — resolves the cursor handle, then advances it with
`streamFetch`; a null return (sentinel `Option.none`) signals the error. -/
def absurder_stmt_fetch_next (h : Nat) (k : Int) (s : FFIState) :
    Option (List Row) × FFIState :=
  match s.resolve h with
  | some (.stream sc) =>
    match streamFetch k sc with
    | (some batch, sc') => (some batch, s.update h (.stream sc'))
    | (Option.none, _) => (Option.none, s.setErr "InvalidArgument")
  | _ => (Option.none, s.setErr invalidHandleMsg)

/-- Modelled from the spec: `absurder_stmt_stream_close(stream_handle)` —
Open/Exhausted → Closed, releasing the engine-side iteration state;
idempotent, and a stale handle is a silent success. -/
def absurder_stmt_stream_close (h : Nat) (s : FFIState) : Int × FFIState :=
  match s.resolve h with
  | some (.stream sc) => (0, s.update h (.stream ⟨sc.conn, .closed, []⟩))
  | _ => (0, s)

/-- Modelled from the spec: `absurder_db_rekey(handle, new_key)` — re-encrypts
under a new key; refused with a `TransactionStateError` while a transaction is
active, leaving the current key unchanged. -/
def absurder_db_rekey (h : Nat) (newKey : String) (s : FFIState) : Int × FFIState :=
  match s.resolve h with
  | some (.conn c) =>
    match c.txState with
    | .active => (-1, s.setErr "TransactionStateError")
    | .none => (0, s.update h (.conn ⟨some newKey, .none⟩))
  | _ => (-1, s.setErr invalidHandleMsg)

/-- Modelled from the spec: one invocation of an exposed operation family.
Engine / cipher / filesystem verdicts (external capabilities) travel with the
operation as oracle data, so quantifying over `Op` covers every behaviour of
the external collaborators. -/
inductive Op : Type
  | dbNew (engineOk : Bool) (name : String) : Op
  | dbNewEncrypted (engineOk keyOk : Bool) (name key : String) : Op
  | dbExecute (engineRes : Option String) (h : Nat) (sql : String) : Op
  | dbExecuteWithParams (engineRes : Option String) (h : Nat) (sql params : String) : Op
  | getError : Op
  | dbExport (ioOk : Bool) (h : Nat) (path : String) : Op
  | dbImport (ioOk : Bool) (h : Nat) (path : String) : Op
  | beginTx (h : Nat) : Op
  | commitTx (h : Nat) : Op
  | rollbackTx (h : Nat) : Op
  | executeBatch (oracle : List Bool) (h : Nat) (stmts : List String) : Op
  | dbClose (h : Nat) : Op
  | dbPrepare (compileOk : Bool) (h : Nat) (sql : String) : Op
  | stmtExecute (engineRes : Option String) (h : Nat) (params : String) : Op
  | stmtFinalize (h : Nat) : Op
  | prepareStream (engineRows : Option (List Row)) (h : Nat) (sql : String) : Op
  | fetchNext (h : Nat) (batchSize : Int) : Op
  | streamClose (h : Nat) : Op
  | dbRekey (h : Nat) (newKey : String) : Op

/-- The primitive value an operation hands back across the boundary. -/
inductive Out : Type
  | handle (h : Nat) : Out
  | text (t : Option String) : Out
  | status (i : Int) : Out
  | rows (r : Option (List Row)) : Out
  | unit : Out

/-- The reserved failure sentinel of each return type: handle 0, null text,
negative status, null row payload.  `unit` returns (void, `get_error`) cannot
signal failure. -/
def Out.isFailureSentinel : Out → Bool
  | .handle h => h = 0
  | .text t => t.isNone
  | .status i => i < 0
  | .rows r => r.isNone
  | .unit => false

/-- Dispatch one operation against the layer's state. -/
def step (op : Op) (s : FFIState) : Out × FFIState :=
  match op with
  | .dbNew ok name =>
    (.handle (absurder_db_new ok name s).1, (absurder_db_new ok name s).2)
  | .dbNewEncrypted ok kok name key =>
    (.handle (absurder_db_new_encrypted ok kok name key s).1,
      (absurder_db_new_encrypted ok kok name key s).2)
  | .dbExecute res h sql =>
    (.text (absurder_db_execute res h sql s).1, (absurder_db_execute res h sql s).2)
  | .dbExecuteWithParams res h sql params =>
    (.text (absurder_db_execute_with_params res h sql params s).1,
      (absurder_db_execute_with_params res h sql params s).2)
  | .getError => (.text (some (absurder_get_error s).1), (absurder_get_error s).2)
  | .dbExport ok h path =>
    (.status (absurder_db_export ok h path s).1, (absurder_db_export ok h path s).2)
  | .dbImport ok h path =>
    (.status (absurder_db_import ok h path s).1, (absurder_db_import ok h path s).2)
  | .beginTx h =>
    (.status (absurder_db_begin_transaction h s).1, (absurder_db_begin_transaction h s).2)
  | .commitTx h => (.status (absurder_db_commit h s).1, (absurder_db_commit h s).2)
  | .rollbackTx h => (.status (absurder_db_rollback h s).1, (absurder_db_rollback h s).2)
  | .executeBatch oracle h stmts =>
    (.status (absurder_db_execute_batch oracle h stmts s).1,
      (absurder_db_execute_batch oracle h stmts s).2)
  | .dbClose h => (.unit, absurder_db_close h s)
  | .dbPrepare ok h sql =>
    (.handle (absurder_db_prepare ok h sql s).1, (absurder_db_prepare ok h sql s).2)
  | .stmtExecute res h params =>
    (.text (absurder_stmt_execute res h params s).1, (absurder_stmt_execute res h params s).2)
  | .stmtFinalize h => (.status (absurder_stmt_finalize h s).1, (absurder_stmt_finalize h s).2)
  | .prepareStream rows h sql =>
    (.handle (absurder_stmt_prepare_stream rows h sql s).1,
      (absurder_stmt_prepare_stream rows h sql s).2)
  | .fetchNext h k =>
    (.rows (absurder_stmt_fetch_next h k s).1, (absurder_stmt_fetch_next h k s).2)
  | .streamClose h =>
    (.status (absurder_stmt_stream_close h s).1, (absurder_stmt_stream_close h s).2)
  | .dbRekey h key => (.status (absurder_db_rekey h key s).1, (absurder_db_rekey h key s).2)

/-- Run a sequence of operations from a starting state. -/
def runFrom (s : FFIState) : List Op → FFIState
  | [] => s
  | op :: ops => runFrom (step op s).2 ops

/-- The state after a sequence of operations from process start: exactly the
reachable states of the layer. -/
def run (ops : List Op) : FFIState := runFrom initState ops

/-- The Handle Table invariant: the counter stays positive, every live key is
nonzero and below the counter, and no key appears twice. -/
def Inv (s : FFIState) : Prop :=
  1 ≤ s.nextHandle ∧
    (∀ k ∈ s.table.map Prod.fst, 0 < k ∧ k < s.nextHandle) ∧
    (s.table.map Prod.fst).Nodup

theorem inv_setErr {s : FFIState} (hs : Inv s) (m : String) : Inv (s.setErr m) := hs

theorem inv_update {s : FFIState} (hs : Inv s) (h : Nat) (r : Resource) :
    Inv (s.update h r) := by
  obtain ⟨h1, h2, h3⟩ := hs
  refine ⟨h1, ?_, ?_⟩
  · intro k hk
    rw [FFIState.update] at hk
    simp only at hk
    rw [keys_updateTable] at hk
    exact h2 k hk
  · rw [FFIState.update]
    simp only
    rw [keys_updateTable]
    exact h3

theorem inv_filter {s : FFIState} (hs : Inv s) (p : Nat × Resource → Bool) :
    Inv ⟨s.nextHandle, s.table.filter p, s.lastError⟩ := by
  obtain ⟨h1, h2, h3⟩ := hs
  have hsub : ((s.table.filter p).map Prod.fst).Sublist (s.table.map Prod.fst) :=
    List.Sublist.map Prod.fst (List.filter_sublist s.table)
  exact ⟨h1, fun k hk => h2 k (hsub.subset hk), hsub.nodup h3⟩

theorem inv_remove {s : FFIState} (hs : Inv s) (h : Nat) : Inv (s.remove h) :=
  inv_filter hs _

theorem inv_closeConn {s : FFIState} (hs : Inv s) (h : Nat) : Inv (s.closeConn h) :=
  inv_filter hs _

theorem inv_alloc {s : FFIState} (hs : Inv s) (r : Resource) : Inv (s.alloc r).2 := by
  obtain ⟨h1, h2, h3⟩ := hs
  simp only [Inv, FFIState.alloc, List.map_cons]
  refine ⟨by omega, ?_, ?_⟩
  · intro k hk
    simp only [List.mem_cons] at hk
    rcases hk with rfl | hk
    · omega
    · have := h2 k hk
      omega
  · refine List.nodup_cons.mpr ⟨?_, h3⟩
    intro hmem
    have := h2 _ hmem
    omega

theorem inv_db_new (ok : Bool) (name : String) {s : FFIState} (hs : Inv s) :
    Inv (absurder_db_new ok name s).2 := by
  unfold absurder_db_new
  split
  · exact inv_alloc hs _
  · exact inv_setErr hs _

theorem inv_db_new_encrypted (ok kok : Bool) (name key : String) {s : FFIState}
    (hs : Inv s) : Inv (absurder_db_new_encrypted ok kok name key s).2 := by
  unfold absurder_db_new_encrypted
  split
  · exact inv_setErr hs _
  · split
    · exact inv_setErr hs _
    · exact inv_alloc hs _

theorem inv_db_execute (res : Option String) (h : Nat) (sql : String) {s : FFIState}
    (hs : Inv s) : Inv (absurder_db_execute res h sql s).2 := by
  unfold absurder_db_execute
  split
  · split
    · exact hs
    · exact inv_setErr hs _
  · exact inv_setErr hs _

theorem inv_db_execute_with_params (res : Option String) (h : Nat) (sql params : String)
    {s : FFIState} (hs : Inv s) :
    Inv (absurder_db_execute_with_params res h sql params s).2 := by
  unfold absurder_db_execute_with_params
  split
  · split
    · split
      · exact hs
      · exact inv_setErr hs _
    · exact inv_setErr hs _
  · exact inv_setErr hs _

theorem inv_db_export (ok : Bool) (h : Nat) (path : String) {s : FFIState} (hs : Inv s) :
    Inv (absurder_db_export ok h path s).2 := by
  unfold absurder_db_export
  split
  · split
    · exact hs
    · exact inv_setErr hs _
  · exact inv_setErr hs _

theorem inv_db_import (ok : Bool) (h : Nat) (path : String) {s : FFIState} (hs : Inv s) :
    Inv (absurder_db_import ok h path s).2 := by
  unfold absurder_db_import
  split
  · split
    · exact hs
    · exact inv_setErr hs _
  · exact inv_setErr hs _

theorem inv_begin (h : Nat) {s : FFIState} (hs : Inv s) :
    Inv (absurder_db_begin_transaction h s).2 := by
  unfold absurder_db_begin_transaction
  split
  · split
    · exact inv_update hs _ _
    · exact inv_setErr hs _
  · exact inv_setErr hs _

theorem inv_commit (h : Nat) {s : FFIState} (hs : Inv s) :
    Inv (absurder_db_commit h s).2 := by
  unfold absurder_db_commit
  split
  · split
    · exact inv_update hs _ _
    · exact inv_setErr hs _
  · exact inv_setErr hs _

theorem inv_rollback (h : Nat) {s : FFIState} (hs : Inv s) :
    Inv (absurder_db_rollback h s).2 := by
  unfold absurder_db_rollback
  split
  · split
    · exact inv_update hs _ _
    · exact inv_setErr hs _
  · exact inv_setErr hs _

theorem inv_batch (oracle : List Bool) (h : Nat) (stmts : List String) {s : FFIState}
    (hs : Inv s) : Inv (absurder_db_execute_batch oracle h stmts s).2 := by
  unfold absurder_db_execute_batch
  split
  · split
    · exact hs
    · exact inv_setErr hs _
  · exact inv_setErr hs _

theorem inv_db_close (h : Nat) {s : FFIState} (hs : Inv s) :
    Inv (absurder_db_close h s) := by
  unfold absurder_db_close
  split
  · exact inv_closeConn hs _
  · exact hs

theorem inv_db_prepare (ok : Bool) (h : Nat) (sql : String) {s : FFIState} (hs : Inv s) :
    Inv (absurder_db_prepare ok h sql s).2 := by
  unfold absurder_db_prepare
  split
  · split
    · exact inv_alloc hs _
    · exact inv_setErr hs _
  · exact inv_setErr hs _

theorem inv_stmt_execute (res : Option String) (h : Nat) (params : String) {s : FFIState}
    (hs : Inv s) : Inv (absurder_stmt_execute res h params s).2 := by
  unfold absurder_stmt_execute
  split
  · split
    · split
      · exact hs
      · exact inv_setErr hs _
    · exact inv_setErr hs _
  · exact inv_setErr hs _

theorem inv_stmt_finalize (h : Nat) {s : FFIState} (hs : Inv s) :
    Inv (absurder_stmt_finalize h s).2 := by
  unfold absurder_stmt_finalize
  split
  · exact inv_remove hs _
  · exact hs

theorem inv_prepare_stream (rows : Option (List Row)) (h : Nat) (sql : String)
    {s : FFIState} (hs : Inv s) : Inv (absurder_stmt_prepare_stream rows h sql s).2 := by
  unfold absurder_stmt_prepare_stream
  split
  · split
    · exact inv_alloc hs _
    · exact inv_setErr hs _
  · exact inv_setErr hs _

theorem inv_fetch_next (h : Nat) (k : Int) {s : FFIState} (hs : Inv s) :
    Inv (absurder_stmt_fetch_next h k s).2 := by
  unfold absurder_stmt_fetch_next
  split
  · split
    · exact inv_update hs _ _
    · exact inv_setErr hs _
  · exact inv_setErr hs _

theorem inv_stream_close (h : Nat) {s : FFIState} (hs : Inv s) :
    Inv (absurder_stmt_stream_close h s).2 := by
  unfold absurder_stmt_stream_close
  split
  · exact inv_update hs _ _
  · exact hs

theorem inv_rekey (h : Nat) (key : String) {s : FFIState} (hs : Inv s) :
    Inv (absurder_db_rekey h key s).2 := by
  unfold absurder_db_rekey
  split
  · split
    · exact inv_setErr hs _
    · exact inv_update hs _ _
  · exact inv_setErr hs _

theorem inv_step (op : Op) {s : FFIState} (hs : Inv s) : Inv (step op s).2 := by
  cases op with
  | dbNew ok name => exact inv_db_new ok name hs
  | dbNewEncrypted ok kok name key => exact inv_db_new_encrypted ok kok name key hs
  | dbExecute res h sql => exact inv_db_execute res h sql hs
  | dbExecuteWithParams res h sql params => exact inv_db_execute_with_params res h sql params hs
  | getError => exact hs
  | dbExport ok h path => exact inv_db_export ok h path hs
  | dbImport ok h path => exact inv_db_import ok h path hs
  | beginTx h => exact inv_begin h hs
  | commitTx h => exact inv_commit h hs
  | rollbackTx h => exact inv_rollback h hs
  | executeBatch oracle h stmts => exact inv_batch oracle h stmts hs
  | dbClose h => exact inv_db_close h hs
  | dbPrepare ok h sql => exact inv_db_prepare ok h sql hs
  | stmtExecute res h params => exact inv_stmt_execute res h params hs
  | stmtFinalize h => exact inv_stmt_finalize h hs
  | prepareStream rows h sql => exact inv_prepare_stream rows h sql hs
  | fetchNext h k => exact inv_fetch_next h k hs
  | streamClose h => exact inv_stream_close h hs
  | dbRekey h key => exact inv_rekey h key hs

theorem inv_runFrom (ops : List Op) {s : FFIState} (hs : Inv s) : Inv (runFrom s ops) := by
  induction ops generalizing s with
  | nil => exact hs
  | cons op rest ih => exact ih (inv_step op hs)

theorem inv_initState : Inv initState := by
  refine ⟨?_, ?_, ?_⟩ <;> simp [initState]

theorem inv_run (ops : List Op) : Inv (run ops) := inv_runFrom ops inv_initState

theorem resolve_setErr (s : FFIState) (m : String) (h : Nat) :
    (s.setErr m).resolve h = s.resolve h := rfl

theorem resolve_update_stale {s : FFIState} {h : Nat} (h' : Nat) (r : Resource)
    (hn : s.resolve h = Option.none) : (s.update h' r).resolve h = Option.none :=
  lookupTable_update_none h' r hn

theorem resolve_remove_stale {s : FFIState} {h : Nat} (h' : Nat)
    (hn : s.resolve h = Option.none) : (s.remove h').resolve h = Option.none :=
  lookupTable_filter_none _ hn

theorem resolve_closeConn_stale {s : FFIState} {h : Nat} (h' : Nat)
    (hn : s.resolve h = Option.none) : (s.closeConn h').resolve h = Option.none :=
  lookupTable_filter_none _ hn

theorem resolve_alloc_stale {s : FFIState} {h : Nat} (hlt : h < s.nextHandle)
    (r : Resource) (hn : s.resolve h = Option.none) :
    (s.alloc r).2.resolve h = Option.none := by
  simp only [FFIState.alloc, FFIState.resolve, lookupTable]
  rw [if_neg (by omega)]
  exact hn

theorem resolve_stale_step (op : Op) {s : FFIState} {h : Nat}
    (hlt : h < s.nextHandle) (hn : s.resolve h = Option.none) :
    (step op s).2.resolve h = Option.none := by
  cases op with
  | dbNew ok name =>
    show (absurder_db_new ok name s).2.resolve h = Option.none
    unfold absurder_db_new
    split
    · exact resolve_alloc_stale hlt _ hn
    · exact hn
  | dbNewEncrypted ok kok name key =>
    show (absurder_db_new_encrypted ok kok name key s).2.resolve h = Option.none
    unfold absurder_db_new_encrypted
    split
    · exact hn
    · split
      · exact hn
      · exact resolve_alloc_stale hlt _ hn
  | dbExecute res h' sql =>
    show (absurder_db_execute res h' sql s).2.resolve h = Option.none
    unfold absurder_db_execute
    split
    · split
      · exact hn
      · exact hn
    · exact hn
  | dbExecuteWithParams res h' sql params =>
    show (absurder_db_execute_with_params res h' sql params s).2.resolve h = Option.none
    unfold absurder_db_execute_with_params
    split
    · split
      · split
        · exact hn
        · exact hn
      · exact hn
    · exact hn
  | getError => exact hn
  | dbExport ok h' path =>
    show (absurder_db_export ok h' path s).2.resolve h = Option.none
    unfold absurder_db_export
    split
    · split
      · exact hn
      · exact hn
    · exact hn
  | dbImport ok h' path =>
    show (absurder_db_import ok h' path s).2.resolve h = Option.none
    unfold absurder_db_import
    split
    · split
      · exact hn
      · exact hn
    · exact hn
  | beginTx h' =>
    show (absurder_db_begin_transaction h' s).2.resolve h = Option.none
    unfold absurder_db_begin_transaction
    split
    · split
      · exact resolve_update_stale _ _ hn
      · exact hn
    · exact hn
  | commitTx h' =>
    show (absurder_db_commit h' s).2.resolve h = Option.none
    unfold absurder_db_commit
    split
    · split
      · exact resolve_update_stale _ _ hn
      · exact hn
    · exact hn
  | rollbackTx h' =>
    show (absurder_db_rollback h' s).2.resolve h = Option.none
    unfold absurder_db_rollback
    split
    · split
      · exact resolve_update_stale _ _ hn
      · exact hn
    · exact hn
  | executeBatch oracle h' stmts =>
    show (absurder_db_execute_batch oracle h' stmts s).2.resolve h = Option.none
    unfold absurder_db_execute_batch
    split
    · split
      · exact hn
      · exact hn
    · exact hn
  | dbClose h' =>
    show (absurder_db_close h' s).resolve h = Option.none
    unfold absurder_db_close
    split
    · exact resolve_closeConn_stale _ hn
    · exact hn
  | dbPrepare ok h' sql =>
    show (absurder_db_prepare ok h' sql s).2.resolve h = Option.none
    unfold absurder_db_prepare
    split
    · split
      · exact resolve_alloc_stale hlt _ hn
      · exact hn
    · exact hn
  | stmtExecute res h' params =>
    show (absurder_stmt_execute res h' params s).2.resolve h = Option.none
    unfold absurder_stmt_execute
    split
    · split
      · split
        · exact hn
        · exact hn
      · exact hn
    · exact hn
  | stmtFinalize h' =>
    show (absurder_stmt_finalize h' s).2.resolve h = Option.none
    unfold absurder_stmt_finalize
    split
    · exact resolve_remove_stale _ hn
    · exact hn
  | prepareStream rows h' sql =>
    show (absurder_stmt_prepare_stream rows h' sql s).2.resolve h = Option.none
    unfold absurder_stmt_prepare_stream
    split
    · split
      · exact resolve_alloc_stale hlt _ hn
      · exact hn
    · exact hn
  | fetchNext h' k =>
    show (absurder_stmt_fetch_next h' k s).2.resolve h = Option.none
    unfold absurder_stmt_fetch_next
    split
    · split
      · exact resolve_update_stale _ _ hn
      · exact hn
    · exact hn
  | streamClose h' =>
    show (absurder_stmt_stream_close h' s).2.resolve h = Option.none
    unfold absurder_stmt_stream_close
    split
    · exact resolve_update_stale _ _ hn
    · exact hn
  | dbRekey h' key =>
    show (absurder_db_rekey h' key s).2.resolve h = Option.none
    unfold absurder_db_rekey
    split
    · split
      · exact hn
      · exact resolve_update_stale _ _ hn
    · exact hn

theorem lookupTable_update_isSome {t : List (Nat × Resource)} {h : Nat} {r0 : Resource}
    (hlk : lookupTable t h = some r0) (h' : Nat) (r : Resource) :
    (lookupTable (updateTable t h' r) h).isSome = true := by
  induction t with
  | nil => simp [lookupTable] at hlk
  | cons q rest ih =>
    obtain ⟨a, b⟩ := q
    simp only [lookupTable] at hlk
    by_cases hk' : a = h'
    · by_cases hk : a = h
      · simp [updateTable, hk', lookupTable, hk' ▸ hk]
      · rw [if_neg hk] at hlk
        simp only [updateTable, if_pos hk', lookupTable]
        rw [if_neg (hk' ▸ hk), hlk]
        rfl
    · by_cases hk : a = h
      · rw [if_pos hk] at hlk
        subst hk
        simp [updateTable, hk', lookupTable]
      · rw [if_neg hk] at hlk
        simp only [updateTable, if_neg hk', lookupTable, if_neg hk]
        exact ih hlk

theorem lookupTable_filter_kept {t : List (Nat × Resource)} {h : Nat} {r : Resource}
    (hlk : lookupTable t h = some r) {p : Nat × Resource → Bool}
    (hp : p (h, r) = true) : lookupTable (t.filter p) h = some r := by
  induction t with
  | nil => simp [lookupTable] at hlk
  | cons q rest ih =>
    obtain ⟨a, b⟩ := q
    simp only [lookupTable] at hlk
    by_cases hk : a = h
    · rw [if_pos hk] at hlk
      obtain rfl : b = r := by injection hlk
      subst hk
      simp [List.filter, hp, lookupTable]
    · rw [if_neg hk] at hlk
      cases hpq : p (a, b) with
      | false =>
        simp only [List.filter, hpq]
        exact ih hlk
      | true =>
        simp only [List.filter, hpq, lookupTable]
        rw [if_neg hk]
        exact ih hlk

theorem resolve_update_isSome {s : FFIState} {h : Nat} {r0 : Resource}
    (hlk : s.resolve h = some r0) (h' : Nat) (r : Resource) :
    ((s.update h' r).resolve h).isSome = true :=
  lookupTable_update_isSome hlk h' r

theorem resolve_alloc_isSome {s : FFIState} {h : Nat} {r0 : Resource}
    (hlk : s.resolve h = some r0) (r : Resource) :
    ((s.alloc r).2.resolve h).isSome = true := by
  simp only [FFIState.alloc, FFIState.resolve, lookupTable]
  split
  · rfl
  · show (lookupTable s.table h).isSome = true
    rw [show lookupTable s.table h = some r0 from hlk]
    rfl

/-- Modelled from the spec: does `op`, applied in state `s`, release the
handle `h`?  Only `close` (the handle itself or by cascade to the
connection's children) and `finalize` (a prepared statement) release
handles; `stream_close` merely moves the cursor to Closed, and every other
operation leaves the Handle Table's domain unchanged or grows it. -/
def releases (op : Op) (s : FFIState) (h : Nat) : Prop :=
  match op with
  | .dbClose hc =>
      (∃ c, s.resolve hc = some (.conn c))
        ∧ (hc = h ∨ ∃ r, s.resolve h = some r ∧ r.childOf hc = true)
  | .stmtFinalize h' => h' = h ∧ ∃ st, s.resolve h = some (.stmt st)
  | _ => False

theorem resolve_live_step (op : Op) {s : FFIState} {h : Nat} {r : Resource}
    (hres : s.resolve h = some r) (hrel : ¬ releases op s h) :
    ((step op s).2.resolve h).isSome = true := by
  have hsome : (s.resolve h).isSome = true := by
    rw [hres]
    rfl
  cases op with
  | dbNew ok name =>
    show ((absurder_db_new ok name s).2.resolve h).isSome = true
    unfold absurder_db_new
    split
    · exact resolve_alloc_isSome hres _
    · exact hsome
  | dbNewEncrypted ok kok name key =>
    show ((absurder_db_new_encrypted ok kok name key s).2.resolve h).isSome = true
    unfold absurder_db_new_encrypted
    split
    · exact hsome
    · split
      · exact hsome
      · exact resolve_alloc_isSome hres _
  | dbExecute res h' sql =>
    show ((absurder_db_execute res h' sql s).2.resolve h).isSome = true
    unfold absurder_db_execute
    split
    · split
      · exact hsome
      · exact hsome
    · exact hsome
  | dbExecuteWithParams res h' sql params =>
    show ((absurder_db_execute_with_params res h' sql params s).2.resolve h).isSome = true
    unfold absurder_db_execute_with_params
    split
    · split
      · split
        · exact hsome
        · exact hsome
      · exact hsome
    · exact hsome
  | getError => exact hsome
  | dbExport ok h' path =>
    show ((absurder_db_export ok h' path s).2.resolve h).isSome = true
    unfold absurder_db_export
    split
    · split
      · exact hsome
      · exact hsome
    · exact hsome
  | dbImport ok h' path =>
    show ((absurder_db_import ok h' path s).2.resolve h).isSome = true
    unfold absurder_db_import
    split
    · split
      · exact hsome
      · exact hsome
    · exact hsome
  | beginTx h' =>
    show ((absurder_db_begin_transaction h' s).2.resolve h).isSome = true
    unfold absurder_db_begin_transaction
    split
    · split
      · exact resolve_update_isSome hres _ _
      · exact hsome
    · exact hsome
  | commitTx h' =>
    show ((absurder_db_commit h' s).2.resolve h).isSome = true
    unfold absurder_db_commit
    split
    · split
      · exact resolve_update_isSome hres _ _
      · exact hsome
    · exact hsome
  | rollbackTx h' =>
    show ((absurder_db_rollback h' s).2.resolve h).isSome = true
    unfold absurder_db_rollback
    split
    · split
      · exact resolve_update_isSome hres _ _
      · exact hsome
    · exact hsome
  | executeBatch oracle h' stmts =>
    show ((absurder_db_execute_batch oracle h' stmts s).2.resolve h).isSome = true
    unfold absurder_db_execute_batch
    split
    · split
      · exact hsome
      · exact hsome
    · exact hsome
  | dbClose hc =>
    show ((absurder_db_close hc s).resolve h).isSome = true
    cases hc0 : s.resolve hc with
    | none =>
      simp only [absurder_db_close, hc0]
      exact hsome
    | some rc =>
      cases rc with
      | conn c =>
        simp only [absurder_db_close, hc0]
        have hnch : hc ≠ h ∧ r.childOf hc ≠ true :=
          ⟨fun he => hrel ⟨⟨c, hc0⟩, Or.inl he⟩,
            fun hch => hrel ⟨⟨c, hc0⟩, Or.inr ⟨r, hres, hch⟩⟩⟩
        have hof : r.childOf hc = false := by
          cases hcb : r.childOf hc with
          | false => rfl
          | true => exact absurd hcb hnch.2
        have hp : (fun p : Nat × Resource => !(p.1 = hc || p.2.childOf hc)) (h, r)
            = true := by
          have hne : ¬ (h = hc) := fun he => hnch.1 he.symm
          simp [hof, hne]
        rw [show (s.closeConn hc).resolve h = some r
          from lookupTable_filter_kept hres hp]
        rfl
      | stmt st =>
        simp only [absurder_db_close, hc0]
        exact hsome
      | stream sc =>
        simp only [absurder_db_close, hc0]
        exact hsome
  | dbPrepare ok h' sql =>
    show ((absurder_db_prepare ok h' sql s).2.resolve h).isSome = true
    unfold absurder_db_prepare
    split
    · split
      · exact resolve_alloc_isSome hres _
      · exact hsome
    · exact hsome
  | stmtExecute res h' params =>
    show ((absurder_stmt_execute res h' params s).2.resolve h).isSome = true
    unfold absurder_stmt_execute
    split
    · split
      · split
        · exact hsome
        · exact hsome
      · exact hsome
    · exact hsome
  | stmtFinalize h' =>
    show ((absurder_stmt_finalize h' s).2.resolve h).isSome = true
    cases hc0 : s.resolve h' with
    | none =>
      simp only [absurder_stmt_finalize, hc0]
      exact hsome
    | some rc =>
      cases rc with
      | conn c =>
        simp only [absurder_stmt_finalize, hc0]
        exact hsome
      | stream sc =>
        simp only [absurder_stmt_finalize, hc0]
        exact hsome
      | stmt st =>
        simp only [absurder_stmt_finalize, hc0]
        have hne : h' ≠ h := fun he => hrel ⟨he, st, he ▸ hc0⟩
        have hp : (fun p : Nat × Resource => !(p.1 = h')) (h, r) = true := by
          have : ¬ (h = h') := fun he => hne he.symm
          simp [this]
        rw [show (s.remove h').resolve h = some r from lookupTable_filter_kept hres hp]
        rfl
  | prepareStream rows h' sql =>
    show ((absurder_stmt_prepare_stream rows h' sql s).2.resolve h).isSome = true
    unfold absurder_stmt_prepare_stream
    split
    · split
      · exact resolve_alloc_isSome hres _
      · exact hsome
    · exact hsome
  | fetchNext h' k =>
    show ((absurder_stmt_fetch_next h' k s).2.resolve h).isSome = true
    unfold absurder_stmt_fetch_next
    split
    · split
      · exact resolve_update_isSome hres _ _
      · exact hsome
    · exact hsome
  | streamClose h' =>
    show ((absurder_stmt_stream_close h' s).2.resolve h).isSome = true
    unfold absurder_stmt_stream_close
    split
    · exact resolve_update_isSome hres _ _
    · exact hsome
  | dbRekey h' key =>
    show ((absurder_db_rekey h' key s).2.resolve h).isSome = true
    unfold absurder_db_rekey
    split
    · split
      · exact hsome
      · exact resolve_update_isSome hres _ _
    · exact hsome

/-- Fuel-indexed worker collecting the batches of successive `fetch_next`
calls on a cursor, up to and excluding the first empty batch (also stopping
at an error). -/
def drainF : Nat → Int → StreamCur → List (List Row) × StreamCur
  | 0, _, sc => ([], sc)
  | fuel + 1, k, sc =>
    match streamFetch k sc with
    | (some b, sc') =>
      if b.isEmpty then ([], sc')
      else ((b :: (drainF fuel k sc').1), (drainF fuel k sc').2)
    | (Option.none, sc') => ([], sc')

/-- The batches of successive `fetch_next` calls up to and excluding the
first empty batch, paired with the cursor left behind by that first empty
batch (the remaining row count bounds the number of nonempty batches). -/
def drain (k : Int) (sc : StreamCur) : List (List Row) × StreamCur :=
  drainF (sc.remaining.length + 1) k sc

theorem streamFetch_open_nil {sc : StreamCur} (hopen : sc.cstate = .open)
    (hrem : sc.remaining = []) {k : Int} (hk : 0 < k) :
    streamFetch k sc = (some [], ⟨sc.conn, .exhausted, []⟩) := by
  unfold streamFetch
  rw [if_neg (by omega), hopen, hrem]

theorem streamFetch_open_cons {sc : StreamCur} (hopen : sc.cstate = .open)
    {r : Row} {rs : List Row} (hrem : sc.remaining = r :: rs) {k : Int} (hk : 0 < k) :
    streamFetch k sc
      = (some (sc.remaining.take k.toNat), ⟨sc.conn, .open, sc.remaining.drop k.toNat⟩) := by
  unfold streamFetch
  rw [if_neg (by omega), hopen, hrem]

theorem streamFetch_terminal {sc : StreamCur}
    (hst : sc.cstate = .exhausted ∨ sc.cstate = .closed) {k : Int} (hk : 0 < k) :
    streamFetch k sc = (some [], sc) := by
  unfold streamFetch
  rcases hst with hst | hst <;> rw [if_neg (by omega), hst]

theorem drainF_spec (fuel : Nat) : ∀ (sc : StreamCur) (k : Int), sc.cstate = .open →
    0 < k → sc.remaining.length < fuel →
    (drainF fuel k sc).1.flatten = sc.remaining
      ∧ (drainF fuel k sc).2 = ⟨sc.conn, .exhausted, []⟩ := by
  induction fuel with
  | zero =>
    intro sc k _ _ hlen
    omega
  | succ f ih =>
    intro sc k hopen hk hlen
    cases hrem : sc.remaining with
    | nil =>
      simp only [drainF, streamFetch_open_nil hopen hrem hk]
      exact ⟨by simp [hrem], rfl⟩
    | cons r rs =>
      have hk1 : 1 ≤ k.toNat := by omega
      obtain ⟨m, hm⟩ : ∃ m, k.toNat = m + 1 := ⟨k.toNat - 1, by omega⟩
      have htake : sc.remaining.take k.toNat = r :: rs.take m := by
        rw [hrem, hm, List.take_succ_cons]
      have hbne : ¬ ((sc.remaining.take k.toNat).isEmpty = true) := by
        rw [htake]
        simp
      have hdroplen : (sc.remaining.drop k.toNat).length < f := by
        rw [hrem]
        have h1 : (List.drop k.toNat (r :: rs)).length = (r :: rs).length - k.toNat :=
          List.length_drop _ _
        rw [hrem] at hlen
        simp only [List.length_cons] at h1 hlen
        omega
      have hrec := ih ⟨sc.conn, .open, sc.remaining.drop k.toNat⟩ k rfl hk hdroplen
      simp only [drainF, streamFetch_open_cons hopen hrem hk, if_neg hbne]
      refine ⟨?_, hrec.2⟩
      simp only [List.flatten_cons, hrec.1]
      rw [List.take_append_drop, hrem]

theorem lookupTable_not_mem {t : List (Nat × Resource)} {h : Nat}
    (hm : h ∉ t.map Prod.fst) : lookupTable t h = Option.none := by
  induction t with
  | nil => rfl
  | cons q rest ih =>
    obtain ⟨a, b⟩ := q
    simp only [List.map_cons, List.mem_cons] at hm
    push_neg at hm
    simp only [lookupTable]
    rw [if_neg (fun he => hm.1 he.symm)]
    exact ih hm.2

theorem lookupTable_mem {t : List (Nat × Resource)} {h : Nat} {r : Resource}
    (hlk : lookupTable t h = some r) : h ∈ t.map Prod.fst := by
  induction t with
  | nil => simp [lookupTable] at hlk
  | cons q rest ih =>
    obtain ⟨a, b⟩ := q
    simp only [lookupTable] at hlk
    by_cases hk : a = h
    · simp [hk]
    · simp only [List.map_cons, List.mem_cons]
      exact Or.inr (ih (by simpa [hk] using hlk))

theorem lookupTable_filter_removed {t : List (Nat × Resource)}
    (hnd : (t.map Prod.fst).Nodup) {h : Nat} {r : Resource}
    (hlk : lookupTable t h = some r) {p : Nat × Resource → Bool}
    (hp : p (h, r) = false) : lookupTable (t.filter p) h = Option.none := by
  induction t with
  | nil => simp [lookupTable] at hlk
  | cons q rest ih =>
    obtain ⟨a, b⟩ := q
    simp only [List.map_cons, List.nodup_cons] at hnd
    simp only [lookupTable] at hlk
    by_cases hk : a = h
    · rw [if_pos hk] at hlk
      obtain rfl : b = r := by injection hlk
      subst hk
      have hrest : lookupTable rest a = Option.none :=
        lookupTable_not_mem (fun hmem => hnd.1 hmem)
      simp only [List.filter, hp]
      exact lookupTable_filter_none p hrest
    · rw [if_neg hk] at hlk
      have := ih hnd.2 hlk
      cases hpq : p (a, b) with
      | true =>
        simp only [List.filter, hpq, lookupTable]
        rw [if_neg hk]
        exact this
      | false =>
        simp only [List.filter, hpq]
        exact this

theorem updateTable_self {t : List (Nat × Resource)} {h : Nat} {r : Resource}
    (hlk : lookupTable t h = some r) : updateTable t h r = t := by
  induction t with
  | nil => rfl
  | cons q rest ih =>
    obtain ⟨a, b⟩ := q
    simp only [lookupTable] at hlk
    by_cases hk : a = h
    · rw [if_pos hk] at hlk
      obtain rfl : b = r := by injection hlk
      simp [updateTable, hk]
    · rw [if_neg hk] at hlk
      simp [updateTable, hk, ih hlk]

theorem update_self {s : FFIState} {h : Nat} {r : Resource}
    (hlk : s.resolve h = some r) : s.update h r = s := by
  obtain ⟨nh, t, e⟩ := s
  simp only [FFIState.update]
  rw [updateTable_self hlk]

theorem resolve_closeConn_gone {s : FFIState}
    (hnd : (s.table.map Prod.fst).Nodup) {ch : Nat} {r : Resource}
    (hlk : s.resolve ch = some r) (h : Nat) (hrel : ch = h ∨ r.childOf h = true) :
    (s.closeConn h).resolve ch = Option.none := by
  apply lookupTable_filter_removed hnd hlk
  rcases hrel with rfl | hof
  · simp
  · simp [hof]

theorem failure_records_message (op : Op) {s : FFIState} (hs : Inv s) :
    (step op s).1.isFailureSentinel = true → ∃ m, (step op s).2 = s.setErr m := by
  have hnh := hs.1
  cases op with
  | dbNew ok name =>
    simp only [step]
    unfold absurder_db_new
    split
    · intro hf
      simp only [Out.isFailureSentinel, FFIState.alloc, decide_eq_true_eq] at hf
      omega
    · intro _
      exact ⟨_, rfl⟩
  | dbNewEncrypted ok kok name key =>
    simp only [step]
    unfold absurder_db_new_encrypted
    split
    · intro _
      exact ⟨_, rfl⟩
    · split
      · intro _
        exact ⟨_, rfl⟩
      · intro hf
        simp only [Out.isFailureSentinel, FFIState.alloc, decide_eq_true_eq] at hf
        omega
  | dbExecute res h sql =>
    simp only [step]
    unfold absurder_db_execute
    split
    · split
      · intro hf
        simp [Out.isFailureSentinel] at hf
      · intro _
        exact ⟨_, rfl⟩
    · intro _
      exact ⟨_, rfl⟩
  | dbExecuteWithParams res h sql params =>
    simp only [step]
    unfold absurder_db_execute_with_params
    split
    · split
      · split
        · intro hf
          simp [Out.isFailureSentinel] at hf
        · intro _
          exact ⟨_, rfl⟩
      · intro _
        exact ⟨_, rfl⟩
    · intro _
      exact ⟨_, rfl⟩
  | getError =>
    intro hf
    simp [step, Out.isFailureSentinel] at hf
  | dbExport ok h path =>
    simp only [step]
    unfold absurder_db_export
    split
    · split
      · intro hf
        simp [Out.isFailureSentinel] at hf
      · intro _
        exact ⟨_, rfl⟩
    · intro _
      exact ⟨_, rfl⟩
  | dbImport ok h path =>
    simp only [step]
    unfold absurder_db_import
    split
    · split
      · intro hf
        simp [Out.isFailureSentinel] at hf
      · intro _
        exact ⟨_, rfl⟩
    · intro _
      exact ⟨_, rfl⟩
  | beginTx h =>
    simp only [step]
    unfold absurder_db_begin_transaction
    split
    · split
      · intro hf
        simp [Out.isFailureSentinel] at hf
      · intro _
        exact ⟨_, rfl⟩
    · intro _
      exact ⟨_, rfl⟩
  | commitTx h =>
    simp only [step]
    unfold absurder_db_commit
    split
    · split
      · intro hf
        simp [Out.isFailureSentinel] at hf
      · intro _
        exact ⟨_, rfl⟩
    · intro _
      exact ⟨_, rfl⟩
  | rollbackTx h =>
    simp only [step]
    unfold absurder_db_rollback
    split
    · split
      · intro hf
        simp [Out.isFailureSentinel] at hf
      · intro _
        exact ⟨_, rfl⟩
    · intro _
      exact ⟨_, rfl⟩
  | executeBatch oracle h stmts =>
    simp only [step]
    unfold absurder_db_execute_batch
    split
    · split
      · intro hf
        simp [Out.isFailureSentinel] at hf
      · intro _
        exact ⟨_, rfl⟩
    · intro _
      exact ⟨_, rfl⟩
  | dbClose h =>
    intro hf
    simp [step, Out.isFailureSentinel] at hf
  | dbPrepare ok h sql =>
    simp only [step]
    unfold absurder_db_prepare
    split
    · split
      · intro hf
        simp only [Out.isFailureSentinel, FFIState.alloc, decide_eq_true_eq] at hf
        omega
      · intro _
        exact ⟨_, rfl⟩
    · intro _
      exact ⟨_, rfl⟩
  | stmtExecute res h params =>
    simp only [step]
    unfold absurder_stmt_execute
    split
    · split
      · split
        · intro hf
          simp [Out.isFailureSentinel] at hf
        · intro _
          exact ⟨_, rfl⟩
      · intro _
        exact ⟨_, rfl⟩
    · intro _
      exact ⟨_, rfl⟩
  | stmtFinalize h =>
    simp only [step]
    unfold absurder_stmt_finalize
    split
    · intro hf
      simp [Out.isFailureSentinel] at hf
    · intro hf
      simp [Out.isFailureSentinel] at hf
  | prepareStream rows h sql =>
    simp only [step]
    unfold absurder_stmt_prepare_stream
    split
    · split
      · intro hf
        simp only [Out.isFailureSentinel, FFIState.alloc, decide_eq_true_eq] at hf
        omega
      · intro _
        exact ⟨_, rfl⟩
    · intro _
      exact ⟨_, rfl⟩
  | fetchNext h k =>
    simp only [step]
    unfold absurder_stmt_fetch_next
    split
    · split
      · intro hf
        simp [Out.isFailureSentinel] at hf
      · intro _
        exact ⟨_, rfl⟩
    · intro _
      exact ⟨_, rfl⟩
  | streamClose h =>
    simp only [step]
    unfold absurder_stmt_stream_close
    split
    · intro hf
      simp [Out.isFailureSentinel] at hf
    · intro hf
      simp [Out.isFailureSentinel] at hf
  | dbRekey h key =>
    simp only [step]
    unfold absurder_db_rekey
    split
    · split
      · intro _
        exact ⟨_, rfl⟩
      · intro hf
        simp [Out.isFailureSentinel] at hf
    · intro _
      exact ⟨_, rfl⟩

/-- C6: Marshaling codec round-trip — for every value `v` of a supported kind
(null, integer, floating-point, text, binary), `decode_params (encode_result
[v])` succeeds and yields exactly `[v]` (the model's numeric encodings are
exact, so no widening is needed). -/
theorem claim6_marshaling_roundtrip (v : Value) :
    decode_params (encode_result [[v]]) = some [v] := by
  have henc : encode_result [[v]] = ([v].map encodeValue).flatten := by
    simp [encode_result]
  rw [henc]
  exact parseValuesF_enc [v] _ (length_le_enc_length [v])

/-- C2: Handle uniqueness — in every reachable state of the Handle Table no
64-bit handle value identifies two distinct live resources (the key list has
no duplicates, across all resource categories), and an allocation performed
in a reachable state returns a handle distinct from every live one, so
overlapping live intervals get distinct handles. -/
theorem claim2_handle_uniqueness (ops : List Op) (r : Resource) :
    ((run ops).table.map Prod.fst).Nodup
      ∧ ((run ops).alloc r).1 ∉ (run ops).table.map Prod.fst := by
  have hinv := inv_run ops
  refine ⟨hinv.2.2, ?_⟩
  intro hmem
  have hb := hinv.2.1 _ hmem
  simp only [FFIState.alloc] at hb
  omega

/-- C10: Zero is never a live handle — in every reachable state handle 0 does
not resolve, and every successful handle-returning operation (plain open,
encrypted open, statement preparation, stream preparation) returns a nonzero
handle, 0 being reserved as the failure sentinel. -/
theorem claim10_zero_reserved (ops : List Op) :
    (run ops).resolve 0 = Option.none
      ∧ (∀ name, (absurder_db_new true name (run ops)).1 ≠ 0)
      ∧ (∀ name key, (absurder_db_new_encrypted true true name key (run ops)).1 ≠ 0)
      ∧ (∀ h sql c, (run ops).resolve h = some (.conn c) →
          (absurder_db_prepare true h sql (run ops)).1 ≠ 0)
      ∧ (∀ h sql c rows, (run ops).resolve h = some (.conn c) →
          (absurder_stmt_prepare_stream (some rows) h sql (run ops)).1 ≠ 0) := by
  have hinv := inv_run ops
  have hnh : 1 ≤ (run ops).nextHandle := hinv.1
  refine ⟨?_, ?_, ?_, ?_, ?_⟩
  · apply lookupTable_not_mem
    intro hmem
    have := hinv.2.1 _ hmem
    omega
  · intro name
    simp only [absurder_db_new, if_pos rfl]
    intro h0
    have hz : (run ops).nextHandle = 0 := h0
    omega
  · intro name key
    simp only [absurder_db_new_encrypted]
    rw [if_neg (by simp), if_neg (by simp)]
    intro h0
    have hz : (run ops).nextHandle = 0 := h0
    omega
  · intro h sql c hres
    simp only [absurder_db_prepare]
    rw [hres]
    intro h0
    have hz : (run ops).nextHandle = 0 := h0
    omega
  · intro h sql c rows hres
    simp only [absurder_stmt_prepare_stream]
    rw [hres]
    intro h0
    have hz : (run ops).nextHandle = 0 := h0
    omega

/-- Witness for C10 at a concrete reachable state with one live connection. -/
theorem claim10_zero_reserved_witness :
    (run [Op.dbNew true "a"]).resolve 1 = some (.conn ⟨Option.none, TxState.none⟩)
      ∧ (absurder_db_prepare true 1 "q" (run [Op.dbNew true "a"])).1 ≠ 0 :=
  ⟨rfl, (claim10_zero_reserved [Op.dbNew true "a"]).2.2.2.1 1 "q"
    ⟨Option.none, TxState.none⟩ rfl⟩

/-- C5: Streaming exhaustion — for any open cursor and any batch size `K > 0`,
the concatenation of the batches returned by successive `fetch_next(K)` calls
up to and excluding the first empty batch is exactly the cursor's rows in
engine order; the first empty batch leaves the cursor Exhausted; every
`fetch_next` after that (and on a Closed cursor) returns an empty batch, not
an error; and a freshly prepared stream starts Open over the engine's rows. -/
theorem claim5_streaming_exhaustion (sc : StreamCur) (k : Int)
    (hopen : sc.cstate = .open) (hk : 0 < k) :
    (drain k sc).1.flatten = sc.remaining
      ∧ (drain k sc).2 = ⟨sc.conn, .exhausted, []⟩
      ∧ streamFetch k (drain k sc).2 = (some [], (drain k sc).2)
      ∧ (∀ sc' : StreamCur, sc'.cstate = .exhausted ∨ sc'.cstate = .closed →
          streamFetch k sc' = (some [], sc'))
      ∧ (∀ (s : FFIState) (h : Nat) (c : Conn) (sql : String) (rows : List Row),
          s.resolve h = some (.conn c) →
          (absurder_stmt_prepare_stream (some rows) h sql s).2.resolve
              (absurder_stmt_prepare_stream (some rows) h sql s).1
            = some (.stream ⟨h, .open, rows⟩)) := by
  have hd := drainF_spec (sc.remaining.length + 1) sc k hopen hk (by omega)
  refine ⟨hd.1, hd.2, ?_, ?_, ?_⟩
  · have : (drain k sc).2 = ⟨sc.conn, .exhausted, []⟩ := hd.2
    rw [this]
    exact streamFetch_terminal (Or.inl rfl) hk
  · intro sc' hst
    exact streamFetch_terminal hst hk
  · intro s h c sql rows hres
    simp only [absurder_stmt_prepare_stream]
    rw [hres]
    exact lookupTable_alloc s _

/-- Witness for C5 on a three-row cursor drained in batches of two. -/
theorem claim5_streaming_exhaustion_witness :
    (⟨1, .open, [[Value.int 1], [Value.int 2], [Value.int 3]]⟩ : StreamCur).cstate
        = CursorState.open
      ∧ (0 : Int) < 2
      ∧ (drain 2 ⟨1, .open, [[Value.int 1], [Value.int 2], [Value.int 3]]⟩).1.flatten
          = [[Value.int 1], [Value.int 2], [Value.int 3]] :=
  ⟨rfl, by decide,
    (claim5_streaming_exhaustion ⟨1, .open, [[Value.int 1], [Value.int 2], [Value.int 3]]⟩
      2 rfl (by decide)).1⟩

/-- C1: Handle lifecycle — a freshly allocated handle resolves to its resource;
a live handle keeps resolving across every operation that does not release it
(resolution succeeds until the handle is released); a released handle no
longer resolves; staleness is permanent under every further operation; and
every resolving operation applied to a stale handle records `InvalidHandle`
and returns its reserved failure sentinel (it is a total function, so the
process never crashes). -/
theorem claim1_handle_lifecycle (s : FFIState) (r : Resource) (h : Nat) :
    ((s.alloc r).2.resolve (s.alloc r).1 = some r)
      ∧ (∀ (r' : Resource) (op : Op), s.resolve h = some r' → ¬ releases op s h →
          ((step op s).2.resolve h).isSome = true)
      ∧ ((s.remove h).resolve h = Option.none)
      ∧ (h < s.nextHandle → s.resolve h = Option.none →
          ∀ op, (step op s).2.resolve h = Option.none)
      ∧ (s.resolve h = Option.none →
          (∀ res sql, absurder_db_execute res h sql s
              = (Option.none, s.setErr invalidHandleMsg))
          ∧ (∀ res sql params, absurder_db_execute_with_params res h sql params s
              = (Option.none, s.setErr invalidHandleMsg))
          ∧ (absurder_db_begin_transaction h s = (-1, s.setErr invalidHandleMsg))
          ∧ (absurder_db_commit h s = (-1, s.setErr invalidHandleMsg))
          ∧ (absurder_db_rollback h s = (-1, s.setErr invalidHandleMsg))
          ∧ (∀ ok path, absurder_db_export ok h path s = (-1, s.setErr invalidHandleMsg))
          ∧ (∀ ok path, absurder_db_import ok h path s = (-1, s.setErr invalidHandleMsg))
          ∧ (∀ oracle stmts, absurder_db_execute_batch oracle h stmts s
              = (-1, s.setErr invalidHandleMsg))
          ∧ (∀ ok sql, absurder_db_prepare ok h sql s = (0, s.setErr invalidHandleMsg))
          ∧ (∀ res params, absurder_stmt_execute res h params s
              = (Option.none, s.setErr invalidHandleMsg))
          ∧ (∀ rows sql, absurder_stmt_prepare_stream rows h sql s
              = (0, s.setErr invalidHandleMsg))
          ∧ (∀ k, absurder_stmt_fetch_next h k s
              = (Option.none, s.setErr invalidHandleMsg))
          ∧ (∀ key, absurder_db_rekey h key s = (-1, s.setErr invalidHandleMsg))) := by
  refine ⟨lookupTable_alloc s r, ?_, lookupTable_filter_self s.table h, ?_, ?_⟩
  · intro r' op hres hrel
    exact resolve_live_step op hres hrel
  · intro hlt hn op
    exact resolve_stale_step op hlt hn
  · intro hn
    refine ⟨?_, ?_, ?_, ?_, ?_, ?_, ?_, ?_, ?_, ?_, ?_, ?_, ?_⟩
    · intro res sql
      simp [absurder_db_execute, FFIState.resolve] at hn ⊢
      rw [hn]
    · intro res sql params
      simp [absurder_db_execute_with_params, FFIState.resolve] at hn ⊢
      rw [hn]
    · simp [absurder_db_begin_transaction, FFIState.resolve] at hn ⊢
      rw [hn]
    · simp [absurder_db_commit, FFIState.resolve] at hn ⊢
      rw [hn]
    · simp [absurder_db_rollback, FFIState.resolve] at hn ⊢
      rw [hn]
    · intro ok path
      simp [absurder_db_export, FFIState.resolve] at hn ⊢
      rw [hn]
    · intro ok path
      simp [absurder_db_import, FFIState.resolve] at hn ⊢
      rw [hn]
    · intro oracle stmts
      simp [absurder_db_execute_batch, FFIState.resolve] at hn ⊢
      rw [hn]
    · intro ok sql
      simp [absurder_db_prepare, FFIState.resolve] at hn ⊢
      rw [hn]
    · intro res params
      simp [absurder_stmt_execute, FFIState.resolve] at hn ⊢
      rw [hn]
    · intro rows sql
      simp [absurder_stmt_prepare_stream, FFIState.resolve] at hn ⊢
      rw [hn]
    · intro k
      simp [absurder_stmt_fetch_next, FFIState.resolve] at hn ⊢
      rw [hn]
    · intro key
      simp [absurder_db_rekey, FFIState.resolve] at hn ⊢
      rw [hn]

/-- Witness for C1: a live connection handle still resolves after an execute
call on it; and on the state reached by opening then closing a connection, its
handle is stale, staleness persists across a further call, and a transaction
call on it fails with `InvalidHandle`. -/
theorem claim1_handle_lifecycle_witness :
    (run [Op.dbNew true "a"]).resolve 1 = some (.conn ⟨Option.none, TxState.none⟩)
      ∧ ((step (Op.dbExecute (some "ok") 1 "q") (run [Op.dbNew true "a"])).2.resolve 1).isSome
          = true
      ∧ 1 < (run [Op.dbNew true "a", Op.dbClose 1]).nextHandle
      ∧ (run [Op.dbNew true "a", Op.dbClose 1]).resolve 1 = Option.none
      ∧ (step (Op.beginTx 1) (run [Op.dbNew true "a", Op.dbClose 1])).2.resolve 1
          = Option.none
      ∧ absurder_db_begin_transaction 1 (run [Op.dbNew true "a", Op.dbClose 1])
          = (-1, (run [Op.dbNew true "a", Op.dbClose 1]).setErr invalidHandleMsg) :=
  ⟨rfl,
    (claim1_handle_lifecycle (run [Op.dbNew true "a"])
        (.conn ⟨Option.none, .none⟩) 1).2.1 (.conn ⟨Option.none, TxState.none⟩)
        (Op.dbExecute (some "ok") 1 "q") rfl (fun hf => hf),
    by decide, rfl,
    (claim1_handle_lifecycle (run [Op.dbNew true "a", Op.dbClose 1])
        (.conn ⟨Option.none, .none⟩) 1).2.2.2.1 (by decide) rfl (Op.beginTx 1),
    ((claim1_handle_lifecycle (run [Op.dbNew true "a", Op.dbClose 1])
        (.conn ⟨Option.none, .none⟩) 1).2.2.2.2 rfl).2.2.1⟩

/-- C3: Transaction state machine — on a live connection, `begin_transaction`
takes None to Active and `commit` / `rollback` take Active to None (and the
updated handle resolves to the updated connection); `begin` while Active and
`commit` / `rollback` while None fail with `TransactionStateError` and leave
the connection (in particular its transaction state) unchanged. -/
theorem claim3_transaction_state_machine (s : FFIState) (h : Nat) (c : Conn)
    (hres : s.resolve h = some (.conn c)) :
    (c.txState = .none →
        absurder_db_begin_transaction h s = (0, s.update h (.conn ⟨c.key, .active⟩))
        ∧ (s.update h (.conn ⟨c.key, .active⟩)).resolve h
            = some (.conn ⟨c.key, .active⟩))
      ∧ (c.txState = .active →
          absurder_db_begin_transaction h s = (-1, s.setErr "TransactionStateError")
          ∧ (absurder_db_begin_transaction h s).2.resolve h = some (.conn c))
      ∧ (c.txState = .active →
          absurder_db_commit h s = (0, s.update h (.conn ⟨c.key, .none⟩))
          ∧ (s.update h (.conn ⟨c.key, .none⟩)).resolve h = some (.conn ⟨c.key, .none⟩))
      ∧ (c.txState = .none →
          absurder_db_commit h s = (-1, s.setErr "TransactionStateError")
          ∧ (absurder_db_commit h s).2.resolve h = some (.conn c))
      ∧ (c.txState = .active →
          absurder_db_rollback h s = (0, s.update h (.conn ⟨c.key, .none⟩)))
      ∧ (c.txState = .none →
          absurder_db_rollback h s = (-1, s.setErr "TransactionStateError")
          ∧ (absurder_db_rollback h s).2.resolve h = some (.conn c)) := by
  refine ⟨?_, ?_, ?_, ?_, ?_, ?_⟩
  · intro ht
    have heq : absurder_db_begin_transaction h s
        = (0, s.update h (.conn ⟨c.key, .active⟩)) := by
      simp [absurder_db_begin_transaction, hres, ht]
    exact ⟨heq, lookupTable_update_self hres _⟩
  · intro ht
    have heq : absurder_db_begin_transaction h s
        = (-1, s.setErr "TransactionStateError") := by
      simp [absurder_db_begin_transaction, hres, ht]
    refine ⟨heq, ?_⟩
    rw [heq]
    exact hres
  · intro ht
    have heq : absurder_db_commit h s = (0, s.update h (.conn ⟨c.key, .none⟩)) := by
      simp [absurder_db_commit, hres, ht]
    exact ⟨heq, lookupTable_update_self hres _⟩
  · intro ht
    have heq : absurder_db_commit h s = (-1, s.setErr "TransactionStateError") := by
      simp [absurder_db_commit, hres, ht]
    refine ⟨heq, ?_⟩
    rw [heq]
    exact hres
  · intro ht
    simp [absurder_db_rollback, hres, ht]
  · intro ht
    have heq : absurder_db_rollback h s = (-1, s.setErr "TransactionStateError") := by
      simp [absurder_db_rollback, hres, ht]
    refine ⟨heq, ?_⟩
    rw [heq]
    exact hres

/-- Witness for C3: beginning a transaction on a fresh connection succeeds. -/
theorem claim3_transaction_state_machine_witness :
    (run [Op.dbNew true "a"]).resolve 1 = some (.conn ⟨Option.none, TxState.none⟩)
      ∧ absurder_db_begin_transaction 1 (run [Op.dbNew true "a"])
          = (0, (run [Op.dbNew true "a"]).update 1 (.conn ⟨Option.none, .active⟩)) :=
  ⟨rfl, ((claim3_transaction_state_machine (run [Op.dbNew true "a"]) 1
      ⟨Option.none, TxState.none⟩ rfl).1 rfl).1⟩

/-- C4: Cascading close — closing a live connection removes the connection and
every prepared statement and stream cursor it spawned from the Handle Table,
and subsequent statement-execution and fetch calls on such a child handle fail
with `InvalidHandle`. -/
theorem claim4_close_cascade (s : FFIState)
    (hnd : (s.table.map Prod.fst).Nodup) (hc : Nat) (c : Conn)
    (hconn : s.resolve hc = some (.conn c)) (ch : Nat) (r : Resource)
    (hchild : s.resolve ch = some r) (hof : r.childOf hc = true) :
    (absurder_db_close hc s).resolve ch = Option.none
      ∧ (absurder_db_close hc s).resolve hc = Option.none
      ∧ (∀ res params, absurder_stmt_execute res ch params (absurder_db_close hc s)
          = (Option.none, (absurder_db_close hc s).setErr invalidHandleMsg))
      ∧ (∀ k, absurder_stmt_fetch_next ch k (absurder_db_close hc s)
          = (Option.none, (absurder_db_close hc s).setErr invalidHandleMsg)) := by
  have hclose : absurder_db_close hc s = s.closeConn hc := by
    simp [absurder_db_close, hconn]
  have h1 : (s.closeConn hc).resolve ch = Option.none :=
    resolve_closeConn_gone hnd hchild hc (Or.inr hof)
  have h2 : (s.closeConn hc).resolve hc = Option.none :=
    resolve_closeConn_gone hnd hconn hc (Or.inl rfl)
  rw [hclose]
  refine ⟨h1, h2, ?_, ?_⟩
  · intro res params
    simp [absurder_stmt_execute, FFIState.resolve] at h1 ⊢
    rw [h1]
  · intro k
    simp [absurder_stmt_fetch_next, FFIState.resolve] at h1 ⊢
    rw [h1]

/-- Witness for C4: closing a connection having one prepared statement
invalidates the statement handle. -/
theorem claim4_close_cascade_witness :
    (((run [Op.dbNew true "a", Op.dbPrepare true 1 "q"]).table.map Prod.fst)).Nodup
      ∧ (absurder_db_close 1 (run [Op.dbNew true "a", Op.dbPrepare true 1 "q"])).resolve 2
          = Option.none :=
  ⟨by decide,
    (claim4_close_cascade (run [Op.dbNew true "a", Op.dbPrepare true 1 "q"]) (by decide)
      1 ⟨Option.none, TxState.none⟩ rfl 2 (.stmt ⟨1⟩) rfl rfl).1⟩

/-- C8: Rekey refusal — on a connection with an active transaction, rekeying
fails with a `TransactionStateError`, the Handle Table is untouched, and the
handle still resolves to the connection with its current key, which stays
usable. -/
theorem claim8_rekey_refusal (s : FFIState) (h : Nat) (c : Conn)
    (hres : s.resolve h = some (.conn c)) (hactive : c.txState = .active)
    (newKey : String) :
    absurder_db_rekey h newKey s = (-1, s.setErr "TransactionStateError")
      ∧ (absurder_db_rekey h newKey s).2.table = s.table
      ∧ (absurder_db_rekey h newKey s).2.resolve h = some (.conn c) := by
  have heq : absurder_db_rekey h newKey s = (-1, s.setErr "TransactionStateError") := by
    simp [absurder_db_rekey, hres, hactive]
  refine ⟨heq, by rw [heq]; rfl, ?_⟩
  rw [heq]
  exact hres

/-- Witness for C8 on a fresh connection with a begun transaction. -/
theorem claim8_rekey_refusal_witness :
    (run [Op.dbNew true "a", Op.beginTx 1]).resolve 1
        = some (.conn ⟨Option.none, TxState.active⟩)
      ∧ absurder_db_rekey 1 "k2" (run [Op.dbNew true "a", Op.beginTx 1])
          = (-1, (run [Op.dbNew true "a", Op.beginTx 1]).setErr "TransactionStateError") :=
  ⟨rfl, (claim8_rekey_refusal (run [Op.dbNew true "a", Op.beginTx 1]) 1
      ⟨Option.none, TxState.active⟩ rfl rfl "k2").1⟩

/-- C9: Teardown idempotence — on a stale handle, `close` is a silent no-op
returning the state unchanged (error channel included), and `finalize` and
`stream_close` return success without changing anything; closing an
already-Closed stream cursor again is likewise a no-op success. -/
theorem claim9_teardown_idempotent (s : FFIState) (h : Nat) :
    (s.resolve h = Option.none →
        absurder_db_close h s = s
        ∧ absurder_stmt_finalize h s = (0, s)
        ∧ absurder_stmt_stream_close h s = (0, s))
      ∧ (∀ cn, s.resolve h = some (.stream ⟨cn, .closed, []⟩) →
          absurder_stmt_stream_close h s = (0, s)) := by
  constructor
  · intro hn
    refine ⟨?_, ?_, ?_⟩
    · simp [absurder_db_close, FFIState.resolve] at hn ⊢
      rw [hn]
    · simp [absurder_stmt_finalize, FFIState.resolve] at hn ⊢
      rw [hn]
    · simp [absurder_stmt_stream_close, FFIState.resolve] at hn ⊢
      rw [hn]
  · intro cn hres
    have heq : absurder_stmt_stream_close h s
        = (0, s.update h (.stream ⟨cn, .closed, []⟩)) := by
      simp [absurder_stmt_stream_close, hres]
    rw [heq, update_self hres]

/-- Witness for C9: a second close of a closed connection and a second close
of a closed stream cursor are both silent no-ops. -/
theorem claim9_teardown_idempotent_witness :
    (run [Op.dbNew true "a", Op.dbClose 1]).resolve 1 = Option.none
      ∧ absurder_db_close 1 (run [Op.dbNew true "a", Op.dbClose 1])
          = run [Op.dbNew true "a", Op.dbClose 1]
      ∧ (run [Op.dbNew true "a", Op.prepareStream (some []) 1 "q",
            Op.streamClose 2]).resolve 2
          = some (.stream ⟨1, CursorState.closed, []⟩)
      ∧ absurder_stmt_stream_close 2
            (run [Op.dbNew true "a", Op.prepareStream (some []) 1 "q", Op.streamClose 2])
          = (0, run [Op.dbNew true "a", Op.prepareStream (some []) 1 "q",
              Op.streamClose 2]) :=
  ⟨rfl,
    ((claim9_teardown_idempotent (run [Op.dbNew true "a", Op.dbClose 1]) 1).1 rfl).1,
    rfl,
    (claim9_teardown_idempotent
      (run [Op.dbNew true "a", Op.prepareStream (some []) 1 "q", Op.streamClose 2]) 2).2
      1 rfl⟩

/-- C7: Error-channel contract — in an invariant-respecting state, whenever an
operation returns the reserved failure sentinel of its return type, the
resulting state is exactly `s.setErr m` for some message `m`: the failing call
itself wrote `m` into the Error Channel (overwriting whatever was there), and
`absurder_get_error` called right after returns exactly that `m` without
changing the state.  Reading never clears or changes the channel.  Each
failure family records its own taxonomy message: `OpenFailed`, `BadKey`,
`SqlError`, `ParamDecodeError`, `IOError`, `InvalidArgument`,
`TransactionStateError` (and `InvalidHandle`, pinned per-operation in the
handle-lifecycle theorem). -/
theorem claim7_error_channel (op : Op) (s : FFIState) (hs : Inv s) :
    ((step op s).1.isFailureSentinel = true →
        ∃ m, (step op s).2 = s.setErr m
          ∧ absurder_get_error (step op s).2 = (m, (step op s).2))
      ∧ absurder_get_error s = (s.lastError.getD "", s)
      ∧ (∀ m, absurder_get_error (s.setErr m) = (m, s.setErr m))
      ∧ (∀ name, absurder_db_new false name s = (0, s.setErr "OpenFailed"))
      ∧ (∀ name key, absurder_db_new_encrypted true false name key s
          = (0, s.setErr "BadKey"))
      ∧ (∀ h c sql, s.resolve h = some (.conn c) →
          absurder_db_execute Option.none h sql s = (Option.none, s.setErr "SqlError"))
      ∧ (∀ h c sql params res, s.resolve h = some (.conn c) →
          decode_params params.data = Option.none →
          absurder_db_execute_with_params res h sql params s
            = (Option.none, s.setErr "ParamDecodeError"))
      ∧ (∀ h c path, s.resolve h = some (.conn c) →
          absurder_db_export false h path s = (-1, s.setErr "IOError")
          ∧ absurder_db_import false h path s = (-1, s.setErr "IOError"))
      ∧ (∀ h sc k, s.resolve h = some (.stream sc) → k ≤ 0 →
          absurder_stmt_fetch_next h k s = (Option.none, s.setErr "InvalidArgument"))
      ∧ (∀ h c, s.resolve h = some (.conn c) → c.txState = .active →
          absurder_db_begin_transaction h s = (-1, s.setErr "TransactionStateError")) := by
  refine ⟨?_, rfl, fun m => rfl, ?_, ?_, ?_, ?_, ?_, ?_, ?_⟩
  · intro hfail
    obtain ⟨m, hm⟩ := failure_records_message op hs hfail
    exact ⟨m, hm, by rw [hm]; rfl⟩
  · intro name
    simp [absurder_db_new]
  · intro name key
    simp [absurder_db_new_encrypted]
  · intro h c sql hres
    simp [absurder_db_execute, hres]
  · intro h c sql params res hres hdec
    simp [absurder_db_execute_with_params, hres, hdec]
  · intro h c path hres
    constructor
    · simp [absurder_db_export, hres]
    · simp [absurder_db_import, hres]
  · intro h sc k hres hk
    simp [absurder_stmt_fetch_next, hres, streamFetch, hk]
  · intro h c hres htx
    simp [absurder_db_begin_transaction, hres, htx]

/-- Witness for C7: a transaction call on an unknown handle at process start
fails, the resulting state is exactly the initial state with that failure's
message recorded, reading returns it unchanged; and an engine-rejected execute
on a live connection records `SqlError`. -/
theorem claim7_error_channel_witness :
    (step (Op.beginTx 1) initState).1.isFailureSentinel = true
      ∧ (∃ m, (step (Op.beginTx 1) initState).2 = initState.setErr m
          ∧ absurder_get_error (step (Op.beginTx 1) initState).2
              = (m, (step (Op.beginTx 1) initState).2))
      ∧ absurder_get_error initState = ("", initState)
      ∧ (run [Op.dbNew true "a"]).resolve 1 = some (.conn ⟨Option.none, TxState.none⟩)
      ∧ absurder_db_execute Option.none 1 "q" (run [Op.dbNew true "a"])
          = (Option.none, (run [Op.dbNew true "a"]).setErr "SqlError") :=
  ⟨rfl, (claim7_error_channel (Op.beginTx 1) initState inv_initState).1 rfl,
    (claim7_error_channel (Op.beginTx 1) initState inv_initState).2.1,
    rfl,
    (claim7_error_channel (Op.beginTx 1) (run [Op.dbNew true "a"])
        (inv_run [Op.dbNew true "a"])).2.2.2.2.2.1 1 ⟨Option.none, TxState.none⟩ "q" rfl⟩
